import Mathlib

/-!
Verification development for the NeerSetu groundwater copilot.

The Python sources (backend/agent.py, backend/tools/sql_tool.py,
backend/tools/rag_tool.py) are shallowly embedded below:

* strings are `List Char`; Python `str.lower()` / SQLite `lower()` are modelled
  with `Char.toLower`, which folds exactly ASCII `A`-`Z` (SQLite's `lower()` is
  ASCII-only; the query keywords and block names handled by the agent are ASCII);
* Python whitespace (`\s`, `str.strip`, `str.split`) is modelled with the ASCII
  whitespace characters;
* SQLite REAL levels are modelled as `Rat`; `"%.2f"`/`"%+.2f"` formatting is
  modelled by exact round-half-to-even at two decimals;
* the SQLite table `gw_levels` is modelled as a list of rows, queried through
  the same filters the SQL statements express; `fetchall` with `ORDER BY year
  ASC` sorts by year, `fetchone` takes the first matching row;
* Python exceptions are modelled with the `Except` monad: operations that can
  raise return `Except PyExc _`, and every `try/except` of the source becomes a
  `tryCatch`;
* the regular expressions of agent.py are compiled by hand into deterministic
  scanners (for these particular patterns greedy matching never backtracks, so
  the scanners implement exactly the Python `re` semantics, including the
  multiline `^`/`$` behaviour and the `(?!\S)` lookahead of the sanitizer).
-/

namespace NeerSetu

set_option maxRecDepth 400000

/-! ### Basic string utilities (List Char) -/

/-- ASCII whitespace, the characters matched by `\s` / stripped by `str.strip`
for the ASCII fragment handled by the agent. -/
def isPySpace (c : Char) : Bool :=
  c = ' ' || c = '\t' || c = '\n' || c = '\r' || c = '\x0b' || c = '\x0c'

/-- `str.lower()` / SQLite `lower()` (ASCII case folding). -/
def lowerStr (s : List Char) : List Char := s.map Char.toLower

/-- `pat in s` (Python substring containment). -/
def containsSub (pat : List Char) : List Char → Bool
  | [] => pat.isEmpty
  | c :: t => pat.isPrefixOf (c :: t) || containsSub pat t

/-- Number of positions of `s` at which `pat` occurs (counts overlapping
occurrences; the patterns we count cannot overlap themselves). -/
def countSub (pat : List Char) : List Char → Nat
  | [] => if pat.isEmpty then 1 else 0
  | c :: t => (if pat.isPrefixOf (c :: t) then 1 else 0) + countSub pat t

/-- `str.strip()`. -/
def pyStrip (s : List Char) : List Char :=
  (((s.dropWhile isPySpace).reverse.dropWhile isPySpace).reverse)

/-- `str.split()` (split on whitespace runs, no empty tokens). -/
def splitWs : List Char → List (List Char)
  | [] => []
  | c :: t =>
    if isPySpace c then splitWs t
    else
      match splitWs t with
      | [] => [[c]]
      | w :: ws =>
        match t with
        | [] => [[c]]
        | d :: _ => if isPySpace d then [c] :: w :: ws else (c :: w) :: ws

/-- Split on `'\n'`, keeping empty segments (`"a\nb"` ↦ `["a","b"]`,
`""` ↦ `[""]`). -/
def splitNl : List Char → List (List Char)
  | [] => [[]]
  | c :: t =>
    if c = '\n' then [] :: splitNl t
    else
      match splitNl t with
      | s :: rest => (c :: s) :: rest
      | [] => [[c]]

/-- `sep.join parts`. -/
def joinSep (sep : List Char) : List (List Char) → List Char
  | [] => []
  | [x] => x
  | x :: y :: ys => x ++ sep ++ joinSep sep (y :: ys)

/-- Decimal digits of a natural number. -/
def natToStr (n : Nat) : List Char := Nat.toDigits 10 n

/-- Decimal rendering of an integer (Python `str`/`f"{n}"`). -/
def intToStr (n : Int) : List Char :=
  if n < 0 then '-' :: natToStr n.natAbs else natToStr n.natAbs

/-- Two decimal digits with a leading zero. -/
def pad2 (n : Nat) : List Char := if n < 10 then '0' :: natToStr n else natToStr n

/-- Round to the nearest integer, ties to even (the rounding used by
`"%.2f"` formatting). -/
def roundHalfEven (x : Rat) : Int :=
  let f := x.floor
  let r := x - (f : Rat)
  if r < 1/2 then f
  else if 1/2 < r then f + 1
  else if f % 2 = 0 then f else f + 1

/-- `f"{x:.2f}"`. -/
def fmt2 (x : Rat) : List Char :=
  let n := roundHalfEven (x * 100)
  let a := n.natAbs
  (if n < 0 then ['-'] else []) ++ natToStr (a / 100) ++ ['.'] ++ pad2 (a % 100)

/-- `f"{x:+.2f}"`. -/
def fmtSigned2 (x : Rat) : List Char :=
  let n := roundHalfEven (x * 100)
  let a := n.natAbs
  (if n < 0 then ['-'] else ['+']) ++ natToStr (a / 100) ++ ['.'] ++ pad2 (a % 100)

/-- Match a literal pattern at the front of `s`; on success return the rest. -/
def matchLit : List Char → List Char → Option (List Char)
  | [], s => some s
  | _ :: _, [] => none
  | p :: ps, c :: cs => if p = c then matchLit ps cs else none

/-- Case-insensitive `matchLit` (ASCII folding, like `re.I`). -/
def matchLitCI : List Char → List Char → Option (List Char)
  | [], s => some s
  | _ :: _, [] => none
  | p :: ps, c :: cs => if p.toLower = c.toLower then matchLitCI ps cs else none

/-- Lexicographic `<=` on code points (Python string comparison). -/
def strLe : List Char → List Char → Bool
  | [], _ => true
  | _ :: _, [] => false
  | x :: xs, y :: ys => if x < y then true else if y < x then false else strLe xs ys

/-- Stable insertion for an ascending lexicographic sort. -/
def insStr (s : List Char) : List (List Char) → List (List Char)
  | [] => [s]
  | x :: xs => if strLe s x then s :: x :: xs else x :: insStr s xs

/-- `sorted(listOfStrings)`. -/
def sortStrings : List (List Char) → List (List Char)
  | [] => []
  | x :: xs => insStr x (sortStrings xs)

/-! ### backend/tools/sql_tool.py -/

/-- One row of the `gw_levels` table (the columns the queries touch). -/
structure Row where
  block : List Char
  year : Int
  level_m : Rat
  stage : List Char
deriving DecidableEq, Repr

/-- Ascending-by-year insertion. -/
def insRow (r : Row) : List Row → List Row
  | [] => [r]
  | x :: xs => if r.year ≤ x.year then r :: x :: xs else x :: insRow r xs

/-- `ORDER BY year ASC`. -/
def sortRows : List Row → List Row
  | [] => []
  | x :: xs => insRow x (sortRows xs)

/-- `_fetch_rows`: `SELECT year, level_m, stage FROM gw_levels WHERE
lower(block)=lower(?) AND year BETWEEN ? AND ? ORDER BY year ASC`. -/
def fetch_rows (db : List Row) (block : List Char) (start_year end_year : Int) :
    List Row :=
  sortRows (db.filter fun r =>
    lowerStr r.block == lowerStr block
      && decide (start_year ≤ r.year) && decide (r.year ≤ end_year))

/-- The success payload of `get_trend`. -/
structure TrendOk where
  block : List Char
  start : Int
  stop : Int
  slope_per_year : Rat
  latest_stage : List Char
  tiny_table : List (Int × Rat)
  source : List Char
deriving DecidableEq, Repr

/-- `get_trend`; `.error msg` models the `{"ok": False, "msg": ...}` dictionary. -/
def get_trend (db : List Row) (block : List Char) (start_year end_year : Int) :
    Except (List Char) TrendOk :=
  match fetch_rows db block start_year end_year with
  | [] =>
    .error (("insufficient data for ").data ++ block ++ (" ").data
      ++ intToStr start_year ++ ("-").data ++ intToStr end_year)
  | r0 :: rest =>
    let rows := r0 :: rest
    let rl := rows.getLastD r0
    let years : Int := max 1 (rl.year - r0.year)
    let slope : Rat := (rl.level_m - r0.level_m) / (years : Rat)
    let last5 := rows.drop (rows.length - 5)
    .ok { block := block, start := r0.year, stop := rl.year,
          slope_per_year := slope, latest_stage := rl.stage,
          tiny_table := last5.map (fun r => (r.year, r.level_m)),
          source := ("SQLite gw_levels").data }

/-- The success payload of `get_stage`. -/
structure StageOk where
  block : List Char
  year : Int
  stage : List Char
  level_m : Rat
  source : List Char
deriving DecidableEq, Repr

/-- `get_stage`: point lookup by `(lower(block), year)`, first matching row. -/
def get_stage (db : List Row) (block : List Char) (year : Int) :
    Except (List Char) StageOk :=
  match (db.filter fun r =>
      lowerStr r.block == lowerStr block && r.year == year).head? with
  | none =>
    .error (("insufficient data for ").data ++ block ++ (" ").data ++ intToStr year)
  | some r =>
    .ok { block := block, year := year, stage := r.stage, level_m := r.level_m,
          source := ("SQLite gw_levels").data }

/-- The success payload of `get_level`. -/
structure LevelOk where
  block : List Char
  year : Int
  level_m : Rat
  source : List Char
deriving DecidableEq, Repr

/-- `get_level`: level-only point lookup. -/
def get_level (db : List Row) (block : List Char) (year : Int) :
    Except (List Char) LevelOk :=
  match (db.filter fun r =>
      lowerStr r.block == lowerStr block && r.year == year).head? with
  | none =>
    .error (("insufficient data for ").data ++ block ++ (" ").data ++ intToStr year)
  | some r =>
    .ok { block := block, year := year, level_m := r.level_m,
          source := ("SQLite gw_levels").data }

/-! ### backend/tools/rag_tool.py -/

/-- A retrieved passage. -/
structure RagDoc where
  text : List Char
  source : List Char
deriving DecidableEq, Repr

/-- The `glossary.txt` entry of the in-memory corpus. -/
def glossaryText : List Char :=
  ("Over-exploited: Annual groundwater extraction exceeds annual recharge; strict regulation and recharge are needed. Critical: Extraction close to recharge; adopt conservation and artificial recharge (check-dams, percolation tanks). Safe: Extraction comfortably below recharge. Monitor and use efficient irrigation practices.").data

/-- The `interventions.txt` entry of the in-memory corpus. -/
def interventionsText : List Char :=
  ("Interventions: Check-dams and percolation tanks in upper catchments; roof-top rainwater harvesting in settlements and public buildings; water budgeting at panchayat level; crop planning to reduce water stress. Citations: CGWB GWRA-2022; Master Plan for Artificial Recharge 2020.").data

/-- `_DOCS`. -/
def docsCorpus : List RagDoc :=
  [⟨glossaryText, ("glossary.txt").data⟩,
   ⟨interventionsText, ("interventions.txt").data⟩]

/-- `_score`: number of distinct query tokens (length ≥ 3, lowercased) that
occur in the lowercased text. -/
def ragScore (query text : List Char) : Nat :=
  let toks := (splitWs (lowerStr query)).filter (fun t => decide (3 ≤ t.length))
  let tl := lowerStr text
  ((toks.eraseDups).filter (fun tok => containsSub tok tl)).length

/-- Stable descending insertion by score (Python `sorted(..., reverse=True)`
keeps the original order of equal keys). -/
def insDesc (p : RagDoc × Nat) : List (RagDoc × Nat) → List (RagDoc × Nat)
  | [] => [p]
  | x :: xs => if x.2 ≤ p.2 then p :: x :: xs else x :: insDesc p xs

/-- Stable descending sort by score. -/
def sortDescByScore : List (RagDoc × Nat) → List (RagDoc × Nat)
  | [] => []
  | x :: xs => insDesc x (sortDescByScore xs)

/-- `RAGStore.search(query, k)`. -/
def ragSearch (query : List Char) (k : Nat) : List RagDoc :=
  let scored := docsCorpus.map (fun d => (d, ragScore query d.text))
  (((sortDescByScore scored).filter (fun p => decide (0 < p.2))).take k).map
    (fun p => p.1)

/-! ### backend/agent.py — router -/

/-- Query intents. -/
inductive Intent where
  | trend
  | stage_lookup
  | compare
  | definition
  | mixed
deriving DecidableEq, Repr

/-- Numeric value of an ASCII digit. -/
def digitVal (c : Char) : Nat := c.toNat - '0'.toNat

/-- `re.findall(r"(20\d{2})", s)` as integers: left-to-right, non-overlapping
scan for `2`,`0`,digit,digit. -/
def findYearsFuel : Nat → List Char → List Int
  | 0, _ => []
  | _ + 1, [] => []
  | n + 1, '2' :: t0 =>
    match t0 with
    | '0' :: c :: d :: rest =>
      if c.isDigit && d.isDigit then
        ((2000 + 10 * digitVal c + digitVal d : Nat) : Int) :: findYearsFuel n rest
      else findYearsFuel n t0
    | _ => findYearsFuel n t0
  | n + 1, _ :: t => findYearsFuel n t

/-- `re.findall(r"(20\d{2})", s)` as integers. -/
def findYears (s : List Char) : List Int := findYearsFuel s.length s

/-- `_detect_intent`. -/
def detect_intent (q : List Char) : Intent :=
  let ql := lowerStr q
  let yrs := findYears ql
  if containsSub (("compare").data) ql || containsSub ((" vs ").data) ql
      || (("compare ").data).isPrefixOf ql then .compare
  else if containsSub (("trend").data) ql
      || (containsSub (("from").data) ql && containsSub (("to").data) ql)
      || decide (2 ≤ yrs.length) then .trend
  else if containsSub (("stage").data) ql
      || containsSub (("over-exploited").data) ql
      || containsSub (("critical").data) ql
      || containsSub (("safe").data) ql then
    (if (findYears ql).isEmpty then .definition else .stage_lookup)
  else if containsSub (("what").data) ql || containsSub (("how").data) ql
      || containsSub (("explain").data) ql || containsSub (("meaning").data) ql
      || containsSub (("क्या").data) ql || containsSub (("कैसे").data) ql then
    .definition
  else .mixed

/-! ### backend/agent.py — entity extraction -/

/-- Characters of the class `[a-z0-9\-]` under `re.I`. -/
def isTokChar (c : Char) : Bool := c.isAlpha || c.isDigit || c = '-'

/-- Characters of `\w` (ASCII): alphanumerics and underscore. -/
def isWChar (c : Char) : Bool := c.isAlphanum || c = '_'

/-- Match `block\s+([a-z0-9\-]+)` (with `re.I`) at the head of `s`; on success
return the whitespace run and the token run.  The greedy `\s+`/`[a-z0-9\-]+`
runs never backtrack because the two classes are disjoint. -/
def matchBlockParts (s : List Char) : Option (List Char × List Char) :=
  match matchLitCI (("block").data) s with
  | none => none
  | some r1 =>
    let wsRun := r1.takeWhile isPySpace
    if wsRun.isEmpty then none
    else
      let tokRun := (r1.drop wsRun.length).takeWhile isTokChar
      if tokRun.isEmpty then none else some (wsRun, tokRun)

/-- `re.search(r"(block\s+[a-z0-9\-]+)", q, re.I)`: the leftmost match,
returned as the matched text. -/
def searchBlock : List Char → Option (List Char)
  | [] => none
  | c :: t =>
    match matchBlockParts (c :: t) with
    | some (w, tok) => some ((c :: t).take 5 ++ w ++ tok)
    | none => searchBlock t

/-- `re.sub(r"[^\w\- ]+$", "", b)`: strip the trailing run of characters that
are not word characters, hyphens or spaces. -/
def rstripNonWord (b : List Char) : List Char :=
  (b.reverse.dropWhile (fun c => !(isWChar c || c = '-' || c = ' '))).reverse

/-- Match `for\s+([a-z])\b` (with `re.I`) at the head of `s` (the leading `\b`
is checked by the caller); returns the captured letter. -/
def matchForAt (s : List Char) : Option Char :=
  match matchLitCI (("for").data) s with
  | none => none
  | some r1 =>
    let wsRun := r1.takeWhile isPySpace
    if wsRun.isEmpty then none
    else
      match r1.drop wsRun.length with
      | [] => none
      | c :: rest =>
        if c.isAlpha then
          match rest with
          | [] => some c
          | d :: _ => if isWChar d then none else some c
        else none

/-- Scan for `\bfor\s+([a-z])\b`, tracking the previous character for the
word boundary. -/
def searchForAux : Option Char → List Char → Option Char
  | _, [] => none
  | prev, c :: t =>
    let boundary := match prev with | none => true | some p => !(isWChar p)
    match (if boundary then matchForAt (c :: t) else none) with
    | some l => some l
    | none => searchForAux (some c) t

/-- `re.search(r"\bfor\s+([a-z])\b", q, re.I)`, returning the captured letter. -/
def searchFor (q : List Char) : Option Char := searchForAux none q

/-- Whether a character counts as cased for `str.title()` (ASCII letters). -/
def isCased (c : Char) : Bool := c.isAlpha

/-- `str.title()` with the previous-character-cased state. -/
def pyTitleAux : Bool → List Char → List Char
  | _, [] => []
  | prevCased, c :: t =>
    if isCased c then
      (if prevCased then c.toLower else c.toUpper) :: pyTitleAux true t
    else c :: pyTitleAux false t

/-- `str.title()`. -/
def pyTitle (s : List Char) : List Char := pyTitleAux false s

/-- Fueled scanner for `str.replace("Block block", "Block ")`; each step
consumes at least one character, so fuel `s.length` always suffices. -/
def replBBFuel : Nat → List Char → List Char
  | 0, s => s
  | _ + 1, [] => []
  | n + 1, c :: t =>
    match matchLit (("Block block").data) (c :: t) with
    | some rest => ("Block ").data ++ replBBFuel n rest
    | none => c :: replBBFuel n t

/-- `str.replace("Block block", "Block ")`. -/
def replBB (s : List Char) : List Char := replBBFuel s.length s

/-- `_extract_block`. -/
def extract_block (q : List Char) : List Char :=
  match searchBlock q with
  | some m =>
    let b := rstripNonWord (pyStrip m)
    match matchBlockParts b with
    | some (_, tok) =>
      if tok.length = 1 then ("Block ").data ++ tok.map Char.toUpper
      else pyTitle (replBB (("Block ").data ++ tok))
    | none => pyTitle b
  | none =>
    match searchFor q with
    | some c => ("Block ").data ++ [c.toUpper]
    | none => ("Block A").data

/-! ### backend/agent.py — response sanitizer

`_strip_spurious_body_sources` splits at the first match of
`_FOOTER_RX = re.compile(r"\*\*Citations:\*\*", re.I)`, then applies, to the
body only, the substitutions

  `re.sub(r"(?im)^\s*(?:[-*]\s*)?Citations\s*:\s*.*(?:\n(?!\S)|$)", "", body)`
  `re.sub(r"(?im)^\s*(?:[-*]\s*)?(?:Source|Sources)\s*:\s*.*(?:\n(?!\S)|$)", "", body)`
  `re.sub(r"\n{3,}", "\n\n", body).strip()`

and reassembles `body + "\n\n" + footer`, stripped.  The line patterns can
only match at positions where `^` holds (start of string or just after a
newline); since the character classes at each step are disjoint from their
successors, greedy matching succeeds without backtracking, which the scanners
below implement directly. -/

/-- The tail of a line-pattern match after the colon: `\s*.*(?:\n(?!\S)|$)`.
Returns the rest of the input and whether the final newline was consumed
(i.e. whether the position after the match is a line start). -/
def srcTail (r : List Char) : List Char × Bool :=
  let a := r.dropWhile isPySpace
  let b := a.dropWhile (fun c => !(c = '\n'))
  match b with
  | '\n' :: rest =>
    match rest with
    | [] => (rest, true)
    | d :: _ => if isPySpace d then (rest, true) else (b, false)
  | _ => (b, false)

/-- Match a literal name (case-insensitively) followed by `\s*` and `:`. -/
def matchNameColon (name s : List Char) : Option (List Char) :=
  match matchLitCI name s with
  | none => none
  | some r =>
    match r.dropWhile isPySpace with
    | ':' :: t => some t
    | _ => none

/-- Strip `^\s*(?:[-*]\s*)?`, the optional bulleted-line prelude. -/
def stripBullet (s : List Char) : List Char :=
  let s1 := s.dropWhile isPySpace
  match s1 with
  | c :: t => if c = '-' || c = '*' then t.dropWhile isPySpace else s1
  | [] => s1

/-- Match the `Source`/`Sources` line pattern at a line start; on success
return the remaining input and the new line-start flag. -/
def matchSourceLine (s : List Char) : Option (List Char × Bool) :=
  let s2 := stripBullet s
  match matchNameColon (("source").data) s2 with
  | some t => some (srcTail t)
  | none =>
    match matchNameColon (("sources").data) s2 with
    | some t => some (srcTail t)
    | none => none

/-- Match the `Citations` line pattern at a line start. -/
def matchCitLine (s : List Char) : Option (List Char × Bool) :=
  match matchNameColon (("citations").data) (stripBullet s) with
  | some t => some (srcTail t)
  | none => none

/-- Fueled `re.sub(..., "")` scanner for a line pattern `mf`: at line starts,
try the pattern and drop the match; otherwise copy a character.  Any matcher
that consumes at least one character keeps the fuel `s.length` sufficient. -/
def subLinesFuel (mf : List Char → Option (List Char × Bool)) :
    Nat → Bool → List Char → List Char
  | 0, _, s => s
  | _ + 1, _, [] => []
  | n + 1, atStart, c :: t =>
    if atStart then
      match mf (c :: t) with
      | some (rest, b) => subLinesFuel mf n b rest
      | none => c :: subLinesFuel mf n (c = '\n') t
    else c :: subLinesFuel mf n (c = '\n') t

/-- Remove body `Citations:` lines. -/
def subCitLines (s : List Char) : List Char := subLinesFuel matchCitLine s.length true s

/-- Remove body `Source:`/`Sources:` lines. -/
def subSourceLines (s : List Char) : List Char :=
  subLinesFuel matchSourceLine s.length true s

/-- Fueled `re.sub(r"\n{3,}", "\n\n", s)`: every maximal run of three or more
newlines becomes two.  Each step consumes exactly one character of fuel. -/
def collapseNlFuel : Nat → List Char → List Char
  | 0, s => s
  | _ + 1, [] => []
  | n + 1, c :: t =>
    match c, t with
    | '\n', '\n' :: '\n' :: u => collapseNlFuel n ('\n' :: '\n' :: u)
    | _, _ => c :: collapseNlFuel n t

/-- `re.sub(r"\n{3,}", "\n\n", s)`. -/
def collapseNl (s : List Char) : List Char := collapseNlFuel s.length s

/-- The `**Citations:**` footer marker. -/
def footerMarker : List Char := ("**Citations:**").data

/-- `_FOOTER_RX.search`: split at the first case-insensitive occurrence of
the footer marker, returning `(body, footer)`. -/
def findMarkerAux : List Char → Option (List Char × List Char)
  | [] => none
  | c :: t =>
    if lowerStr ((c :: t).take 14) == lowerStr footerMarker then some ([], c :: t)
    else
      match findMarkerAux t with
      | some (b, f) => some (c :: b, f)
      | none => none

/-- The transformation the sanitizer applies to the body part. -/
def cleanBody (body : List Char) : List Char :=
  pyStrip (collapseNl (subSourceLines (subCitLines body)))

/-- `_strip_spurious_body_sources`. -/
def strip_spurious_body_sources (txt : List Char) : List Char :=
  let bf := match findMarkerAux txt with
    | some p => p
    | none => (txt, [])
  pyStrip (cleanBody bf.1
    ++ (if bf.2.isEmpty then [] else ("\n\n").data ++ bf.2))

/-! ### backend/agent.py — composition -/

/-- Python exceptions relevant to the agent: `AuthenticationError`,
`APIStatusError` (with its status code), and any other exception with its
message. -/
inductive PyExc where
  | auth
  | apiStatus (code : Int)
  | generic (msg : List Char)
deriving DecidableEq, Repr

/-- `str(e)` for a modelled exception. -/
def excMsg : PyExc → List Char
  | .auth => ("AuthenticationError").data
  | .apiStatus n => ("APIStatusError ").data ++ intToStr n
  | .generic m => m

/-- The environment the agent runs against: the SQLite table contents, the
passage-index failure mode anticipated by the `try/except` around
`rag_store.search` (`none` = the fixed in-memory store answers normally), the
presence of an API key, and the outcome of the single chat-completion call. -/
structure Env where
  db : List Row
  ragExc : Option (List Char)
  apiKey : Bool
  llm : Except PyExc (List Char)

/-- The `SYSTEM` prompt (verbatim). -/
def systemPrompt : List Char :=
  ("You are NeerSetu, an INGRES groundwater copilot.\n- Use tools (SQL/RAG) for facts before answering.\n- Do NOT claim data was provided by the user/copilot.\n- Always include \x27Source\x27 and \x27Year(s)\x27 for numeric/time-series facts.\n- Do NOT put any \x27Citations:\x27 or \x27Source:\x27 lines in the body; the system appends a Citations footer.\n- Answer in user\x27s language (Hindi/English).\n- Format: brief bullets + tiny table (if trend/comparison) + citations at end.\n- If data is missing, say \x27insufficient data\x27 and suggest next steps.\n").data

/-- The user-turn message built by `ask_agent`. -/
def userPrompt (q context : List Char) : List Char :=
  ("User: ").data ++ q ++ ("\n\nContext from tools:\n").data ++ context
    ++ ("\n\nCompose a grounded answer. Do NOT include any \x27Citations:\x27 or \x27Source:\x27 lines in the body; the system will append the Citations footer.").data

/-- `_compose_llm`: the chat call under its `try/except`; never raises. -/
def compose_llmE (env : Env) (_sys _user : List Char) : Except PyExc (List Char) :=
  tryCatch
    (do
      let c ← env.llm
      pure (pyStrip c))
    (fun e =>
      match e with
      | .auth => pure (("Authentication error: Missing/invalid OPENAI_API_KEY.").data)
      | .apiStatus n => pure (("OpenAI API error (").data ++ intToStr n ++ (").").data)
      | .generic m => pure (("LLM error: ").data ++ m))

/-- `_looks_like_error`. -/
def looks_like_error (text : List Char) : Bool :=
  let s := lowerStr (pyStrip text)
  containsSub (("authentication error").data) s
    || containsSub (("openai api error").data) s
    || containsSub (("llm error").data) s

/-- `_compose_fallback`: the deterministic local formatter. -/
def compose_fallback (tool_outputs citations : List (List Char))
    (forced_table_md : List Char) : List Char :=
  let parts := ("**Answer**").data :: tool_outputs
  let parts := if !forced_table_md.isEmpty
      && !(containsSub (("Year | Level (m)").data)
            (joinSep (("\n\n").data) tool_outputs))
    then parts ++ [("**Tiny table**\n").data ++ forced_table_md] else parts
  let parts := if !citations.isEmpty
    then parts ++ [("\n**Citations:** ").data
      ++ joinSep ((" | ").data) (sortStrings citations.eraseDups)]
    else parts
  pyStrip (joinSep (("\n\n").data) parts)

/-- The markdown tiny table for a list of `(year, level)` rows. -/
def tinyTableMd (rows : List (Int × Rat)) : List Char :=
  ("Year | Level (m)\n-----|----------\n").data
    ++ joinSep (("\n").data)
        (rows.map (fun r => intToStr r.1 ++ (" | ").data ++ fmt2 r.2))

/-- The trend prose fragment (slope, latest stage, embedded table). -/
def trendFragment (block : List Char) (tr : TrendOk) (tbl : List Char) : List Char :=
  ("Trend for ").data ++ block ++ (" ").data ++ intToStr tr.start ++ ("–").data
    ++ intToStr tr.stop ++ (": Δ≈").data ++ fmtSigned2 tr.slope_per_year
    ++ (" m/yr; latest stage ").data ++ tr.latest_stage ++ (".\n").data ++ tbl

/-- The trend citation. -/
def trendCitation (tr : TrendOk) : List Char :=
  ("Source: ").data ++ tr.source ++ ("; Years: ").data ++ intToStr tr.start
    ++ ("–").data ++ intToStr tr.stop

/-- The stage prose fragment. -/
def stageFragment (block : List Char) (y : Int) (st : StageOk) : List Char :=
  ("Stage for ").data ++ block ++ (" in ").data ++ intToStr y ++ (": ").data
    ++ st.stage ++ (" (level ").data ++ fmt2 st.level_m ++ (" m).").data

/-- A `Source: ...; Year: y` citation. -/
def yearCitation (src : List Char) (y : Int) : List Char :=
  ("Source: ").data ++ src ++ ("; Year: ").data ++ intToStr y

/-- The estimated-slope fragment of the compare branch. -/
def compareSlopeFragment (o1 o2 : LevelOk) (y1 y2 : Int) : List Char :=
  ("Estimated Δ≈").data
    ++ fmtSigned2 ((o2.level_m - o1.level_m) / ((y2 - y1 : Int) : Rat))
    ++ (" m/yr over ").data ++ intToStr y1 ++ ("–").data ++ intToStr y2 ++ (".").data

/-- The `Policy:` fragment assembled from retrieved passages. -/
def policyFragment (hits : List RagDoc) : List Char :=
  ("Policy:\n").data
    ++ joinSep (("\n").data)
        (hits.map (fun d => ("- ").data ++ d.text ++ (" (source: ").data
          ++ d.source ++ (")").data))

/-- A `Doc:` citation. -/
def docCitation (d : RagDoc) : List Char := ("Doc: ").data ++ d.source

/-- The structured (SQL) step of `ask_agent`: prose fragments, citations, and
`forced_table_md`, dispatched on intent and the available years. -/
def sqlPart (db : List Row) (intent : Intent) (block : List Char)
    (years : List Int) : List (List Char) × List (List Char) × List Char :=
  match intent, years with
  | .trend, y0 :: y1 :: _ =>
    match get_trend db block y0 y1 with
    | .ok tr =>
      let tbl := tinyTableMd tr.tiny_table
      ([trendFragment block tr tbl], [trendCitation tr], tbl)
    | .error m => ([m], [], [])
  | .stage_lookup, y :: _ =>
    match get_stage db block y with
    | .ok st => ([stageFragment block y st], [yearCitation st.source y], [])
    | .error m => ([m], [], [])
  | .compare, y1 :: y2 :: _ =>
    let v1 := get_level db block y1
    let v2 := get_level db block y2
    let row1 := match v1 with
      | .ok o => intToStr y1 ++ (" | ").data ++ fmt2 o.level_m
      | .error _ => intToStr y1 ++ (" | —").data
    let row2 := match v2 with
      | .ok o => intToStr y2 ++ (" | ").data ++ fmt2 o.level_m
      | .error _ => intToStr y2 ++ (" | —").data
    let tbl := ("Year | Level (m)\n-----|----------\n").data
      ++ row1 ++ ("\n").data ++ row2
    let outs := [("Comparison:\n").data ++ tbl]
    let cits := (match v1 with
        | .ok o => [yearCitation o.source y1]
        | .error _ => [])
      ++ (match v2 with
        | .ok o => [yearCitation o.source y2]
        | .error _ => [])
    let outs := outs ++ (match v1, v2 with
      | .ok o1, .ok o2 =>
        if y1 < y2 then [compareSlopeFragment o1 o2 y1 y2] else []
      | _, _ => [])
    let outs := outs ++ (match v1, v2 with
      | .error _, .error _ => [("insufficient data for requested years.").data]
      | _, _ => [])
    (outs, cits, tbl)
  | _, _ => ([], [], [])

/-- The keyword-RAG step (fragments, citations): the `try/except` around
`rag_store.search` resolved by cases. -/
def ragPart (env : Env) (q : List Char) :
    List (List Char) × List (List Char) :=
  match env.ragExc with
  | some e => ([("(RAG error suppressed: ").data ++ e ++ (")").data], [])
  | none =>
    let hits := ragSearch q 3
    if hits.isEmpty then ([], [])
    else ([policyFragment hits], hits.map docCitation)

/-- The citation entries contributed by the RAG step. -/
def ragDocs (env : Env) (q : List Char) : List (List Char) := (ragPart env q).2

/-- `rag_store.search(query, k=3)` as a possibly-raising operation. -/
def ragHitsE (env : Env) (q : List Char) : Except PyExc (List RagDoc) :=
  match env.ragExc with
  | some e => throw (.generic e)
  | none => pure (ragSearch q 3)

/-- The RAG step with its `try/except`; never raises. -/
def ragPartE (env : Env) (q : List Char) :
    Except PyExc (List (List Char) × List (List Char)) :=
  tryCatch
    (do
      let hits ← ragHitsE env q
      pure (if hits.isEmpty then (([], []) : List (List Char) × List (List Char))
        else ([policyFragment hits], hits.map docCitation)))
    (fun e => pure ([("(RAG error suppressed: ").data ++ excMsg e ++ (")").data], []))

/-- The evidence bundle `ask_agent` accumulates before composing. -/
structure Bundle where
  tool_outputs : List (List Char)
  citations : List (List Char)
  forced_table_md : List Char
deriving DecidableEq, Repr

/-- The bundle assembled for a query (structured step plus RAG step). -/
def assemble (env : Env) (q : List Char) : Bundle :=
  let p := sqlPart env.db (detect_intent q) (extract_block q) (findYears q)
  let r := ragPart env q
  ⟨p.1 ++ r.1, p.2.1 ++ r.2, p.2.2⟩

/-- `ask_agent`: the full pipeline.  A `.error` result would model an
uncaught exception escaping to the caller. -/
def ask_agentE (env : Env) (q : List Char) : Except PyExc (List Char) := do
  let intent := detect_intent q
  let block := extract_block q
  let years := findYears q
  let p := sqlPart env.db intent block years
  let r ← ragPartE env q
  let tool_outputs := p.1 ++ r.1
  let citations := p.2.1 ++ r.2
  let forced_table_md := p.2.2
  let context := if tool_outputs.isEmpty then ("No tool output.").data
    else joinSep (("\n\n").data) tool_outputs
  let user_block := userPrompt q context
  if env.apiKey = false then
    pure (compose_fallback tool_outputs citations forced_table_md)
  else do
    let answer ← compose_llmE env systemPrompt user_block
    if looks_like_error answer then
      pure (compose_fallback tool_outputs citations forced_table_md)
    else
      let a1 := strip_spurious_body_sources answer
      let a2 := if !forced_table_md.isEmpty
          && !(containsSub (("Year | Level (m)").data) a1)
        then a1 ++ ("\n\n**Tiny table**\n").data ++ forced_table_md else a1
      let a3 := if !citations.isEmpty
        then a2 ++ ("\n\n**Citations:** ").data
          ++ joinSep ((" | ").data) (sortStrings citations.eraseDups)
        else a2
      pure a3

/-! ### Claim-side variant and concrete scenarios -/

/-- Claim-side variant of `assemble`, following the words of the spec's year
handling ("intent logic consumes the first one or two distinct values
found"): the year list is de-duplicated before the intent-specific lookups
consume it.  Compared against `assemble`, which feeds the occurrence list
through unchanged. -/
def assembleClaimDistinct (env : Env) (q : List Char) : Bundle :=
  let p := sqlPart env.db (detect_intent q) (extract_block q)
    ((findYears q).eraseDups)
  let r := ragPart env q
  ⟨p.1 ++ r.1, p.2.1 ++ r.2, p.2.2⟩

/-- An environment with the given table, a normally-answering passage index,
no API key configured, and an (unreached) failing backend. -/
def mkEnv (db : List Row) : Env := ⟨db, none, false, .error .auth⟩

/-- Two Block A rows, years 2015 and 2016. -/
def dbTwoYears : List Row :=
  [⟨("Block A").data, 2015, 12, ("Safe").data⟩,
   ⟨("Block A").data, 2016, 14, ("Critical").data⟩]

/-- A trend query in which the year 2015 occurs twice before 2016. -/
def qDupYears : List Char := ("trend 2015 2015 2016 block a").data

/-- A compare query with a duplicated year token: the pair consumed is
(2015, 2015). -/
def qCompareDup : List Char := ("compare 2015 2015 2016 block a").data

/-- A trend query over an empty store whose tokens hit the passage corpus
(the token `2020` occurs in `interventions.txt`). -/
def qTrendHit : List Char := ("trend 2020 2021 block z").data

/-- A trend query over an empty store whose tokens miss the passage corpus. -/
def qTrendMiss : List Char := ("trend 2015 2016 block q").data

/-- A compare query whose tokens (`for`, `2020`) hit both corpus passages. -/
def qCompareHit : List Char := ("compare 2020 vs 2021 for block a").data

/-- A compare query whose tokens miss the passage corpus. -/
def qCompareMiss : List Char := ("compare 2015 vs 2016 block a").data

/-- A single Block A row for 2020. -/
def dbOne2020 : List Row := [⟨("Block A").data, 2020, 25/2, ("Safe").data⟩]

/-- A single Block A row for 2015. -/
def dbOne2015 : List Row := [⟨("Block A").data, 2015, 12, ("Safe").data⟩]

/-- A single Block A row for 2022 (stage lookup scenario). -/
def dbStage2022 : List Row := [⟨("Block A").data, 2022, 97/10, ("Safe").data⟩]

/-- A stage query for Block A in 2022. -/
def qStage2022 : List Char := ("stage of block a in 2022").data

/-- A backend reply that already carries a `**Citations:**` footer. -/
def llmReplyWithFooter : List Char :=
  ("Stage looks fine.\n\n**Citations:** Something").data

/-- The environment of claim C2's failing input: data present, API key
configured, and the backend reply of `llmReplyWithFooter`. -/
def envFooterEcho : Env := ⟨dbStage2022, none, true, .ok llmReplyWithFooter⟩

/-- A backend output with a bare body `Source:` line and one footer line. -/
def txtRoundTrip : List Char :=
  ("Hello\nSource: internal\n\n**Citations:** CGWB 2022").data

/-- Projection of a `get_trend` result onto the fields that do not echo the
caller's spelling of the block: years, slope, stage, table, source. -/
def trendCore (r : Except (List Char) TrendOk) :
    Except Unit (Int × Int × Rat × List Char × List (Int × Rat) × List Char) :=
  match r with
  | .ok tr => .ok (tr.start, tr.stop, tr.slope_per_year, tr.latest_stage,
      tr.tiny_table, tr.source)
  | .error _ => .error ()

/-- Projection of a `get_stage` result onto the non-echoed fields. -/
def stageCore (r : Except (List Char) StageOk) :
    Except Unit (Int × List Char × Rat × List Char) :=
  match r with
  | .ok st => .ok (st.year, st.stage, st.level_m, st.source)
  | .error _ => .error ()

/-- Projection of a `get_level` result onto the non-echoed fields. -/
def levelCore (r : Except (List Char) LevelOk) :
    Except Unit (Int × Rat × List Char) :=
  match r with
  | .ok o => .ok (o.year, o.level_m, o.source)
  | .error _ => .error ()

/-- Decidable equality of `Except` results. -/
instance instDecEqExcept {e a : Type} [DecidableEq e] [DecidableEq a] :
    DecidableEq (Except e a) := fun x y =>
  match x, y with
  | .ok v, .ok w =>
    if h : v = w then isTrue (by rw [h]) else isFalse (fun hc => h (Except.ok.inj hc))
  | .error v, .error w =>
    if h : v = w then isTrue (by rw [h]) else isFalse (fun hc => h (Except.error.inj hc))
  | .ok _, .error _ => isFalse (fun hc => Except.noConfusion hc)
  | .error _, .ok _ => isFalse (fun hc => Except.noConfusion hc)

/-! ### backend/agent.py — sanitizer analysis helpers -/

/-- The non-newline predicate delimiting the lines of a text. -/
def notNl (c : Char) : Bool := !(c = '\n')

/-- The bare source-line prefix of the round-trip claim. -/
def srcPat : List Char := ("Source: ").data

/-- The segments of `splitNl` after the first line. -/
def nlTail (X : List Char) : List (List Char) :=
  match X.dropWhile notNl with
  | [] => []
  | _ :: u => splitNl u

/-- A clean line does not begin, even after leading whitespace, with the
bare `Source: ` prefix. -/
def lineClean (seg : List Char) : Prop :=
  srcPat.isPrefixOf (seg.dropWhile isPySpace) = false

/-- What a mid-line scanner run produces: nothing until the current line
ends, then the scan resumes at the next line start. -/
def slTail (s : List Char) : List Char :=
  match s.dropWhile notNl with
  | [] => []
  | _ :: u => '\n' :: subLinesFuel matchSourceLine u.length true u

/-- Number of case-insensitive occurrences of the `**Citations:**` footer
marker. -/
def ciMarkerCount (txt : List Char) : Nat :=
  countSub (lowerStr footerMarker) (lowerStr txt)

/-! ## Helper lemmas -/

/-- The RAG step with its `try/except` never raises and computes `ragPart`. -/
theorem ragPartE_ok (env : Env) (q : List Char) :
    ragPartE env q = .ok (ragPart env q) := by
  cases h : env.ragExc with
  | none =>
    simp [ragPartE, ragPart, ragHitsE, h, tryCatch, tryCatchThe,
      MonadExceptOf.tryCatch, Except.tryCatch, pure, Except.pure,
      bind, Except.bind, List.isEmpty_iff]
  | some e =>
    simp [ragPartE, ragPart, ragHitsE, h, tryCatch, tryCatchThe,
      MonadExceptOf.tryCatch, Except.tryCatch, throw, throwThe,
      MonadExceptOf.throw, pure, Except.pure, excMsg,
      bind, Except.bind]

/-- `_compose_llm` on a successful call strips the content. -/
theorem compose_llmE_ok {env : Env} {c : List Char} (s u : List Char)
    (h : env.llm = .ok c) : compose_llmE env s u = .ok (pyStrip c) := by
  simp [compose_llmE, h, tryCatch, tryCatchThe, MonadExceptOf.tryCatch,
    Except.tryCatch, pure, Except.pure, bind, Except.bind]

/-- `_compose_llm` on an authentication failure. -/
theorem compose_llmE_auth {env : Env} (s u : List Char)
    (h : env.llm = .error .auth) :
    compose_llmE env s u
      = .ok (("Authentication error: Missing/invalid OPENAI_API_KEY.").data) := by
  simp [compose_llmE, h, tryCatch, tryCatchThe, MonadExceptOf.tryCatch,
    Except.tryCatch, pure, Except.pure, bind, Except.bind]

/-- `_compose_llm` on a backend status error. -/
theorem compose_llmE_status {env : Env} {n : Int} (s u : List Char)
    (h : env.llm = .error (.apiStatus n)) :
    compose_llmE env s u
      = .ok (("OpenAI API error (").data ++ intToStr n ++ (").").data) := by
  simp [compose_llmE, h, tryCatch, tryCatchThe, MonadExceptOf.tryCatch,
    Except.tryCatch, pure, Except.pure, bind, Except.bind]

/-- `_compose_llm` on any other exception. -/
theorem compose_llmE_generic {env : Env} {m : List Char} (s u : List Char)
    (h : env.llm = .error (.generic m)) :
    compose_llmE env s u = .ok (("LLM error: ").data ++ m) := by
  simp [compose_llmE, h, tryCatch, tryCatchThe, MonadExceptOf.tryCatch,
    Except.tryCatch, pure, Except.pure, bind, Except.bind]

/-- A pattern that is a prefix is contained (`pat in s`). -/
theorem containsSub_of_isPrefixOf {pat s : List Char}
    (h : pat.isPrefixOf s = true) : containsSub pat s = true := by
  cases s with
  | nil =>
    cases pat with
    | nil => rfl
    | cons c t => simp [List.isPrefixOf] at h
  | cons c t => simp [containsSub, h]

/-- `dropWhile` does nothing when the head fails the predicate. -/
theorem dropWhile_cons_false {p : Char → Bool} {c : Char} {t : List Char}
    (h : p c = false) : List.dropWhile p (c :: t) = c :: t := by
  simp [List.dropWhile, h]

/-- The authentication-failure message is recognised by `_looks_like_error`. -/
theorem lle_auth :
    looks_like_error (("Authentication error: Missing/invalid OPENAI_API_KEY.").data)
      = true := by decide

/-- The status-error message is recognised by `_looks_like_error`, whatever
the status code was. -/
theorem lle_status (n : Int) :
    looks_like_error (("OpenAI API error (").data ++ intToStr n ++ (").").data)
      = true := by
  have h1 : (("OpenAI API error (").data ++ intToStr n ++ (").").data)
      = 'O' :: (("penAI API error (").data ++ intToStr n ++ (").").data) := by
    simp
  have h2 : pyStrip (("OpenAI API error (").data ++ intToStr n ++ (").").data)
      = ("OpenAI API error (").data ++ intToStr n ++ (").").data := by
    unfold pyStrip
    rw [h1, dropWhile_cons_false (by decide), ← h1]
    have h3 : ((("OpenAI API error (").data ++ intToStr n ++ (").").data).reverse)
        = '.' :: (')' :: ((intToStr n).reverse ++ (("OpenAI API error (").data).reverse)) := by
      simp
    rw [h3, dropWhile_cons_false (by decide), ← h3, List.reverse_reverse]
  unfold looks_like_error
  rw [h2]
  have h4 : containsSub (("openai api error").data)
      (lowerStr (("OpenAI API error (").data ++ intToStr n ++ (").").data)) = true := by
    apply containsSub_of_isPrefixOf
    show List.isPrefixOf _ (List.map Char.toLower _) = true
    rw [List.map_append, List.map_append]
    rfl
  rw [Bool.or_eq_true, Bool.or_eq_true]
  exact Or.inl (Or.inr h4)

/-- The generic-exception message is recognised by `_looks_like_error`,
whatever the exception text was. -/
theorem lle_generic (m : List Char) :
    looks_like_error (("LLM error: ").data ++ m) = true := by
  have h1 : (("LLM error: ").data ++ m)
      = 'L' :: (("LM error: ").data ++ m) := by simp
  have hd : List.dropWhile isPySpace (("LLM error: ").data ++ m)
      = ("LLM error: ").data ++ m := by
    rw [h1, dropWhile_cons_false (by decide), ← h1]
  have hrev : ((("LLM error: ").data ++ m).reverse)
      = m.reverse ++ (' ' :: (":rorre MLL").data) := by
    simp
  unfold looks_like_error pyStrip
  rw [hd, hrev, List.dropWhile_append]
  by_cases he : (List.dropWhile isPySpace m.reverse).isEmpty = true
  · rw [if_pos he]
    have : List.dropWhile isPySpace (' ' :: (":rorre MLL").data)
        = (":rorre MLL").data := by decide
    rw [this]
    decide
  · rw [if_neg he]
    have h5 : (List.dropWhile isPySpace m.reverse ++ (' ' :: (":rorre MLL").data)).reverse
        = ("LLM error: ").data ++ (List.dropWhile isPySpace m.reverse).reverse := by
      simp
    rw [h5]
    have h6 : containsSub (("llm error").data)
        (lowerStr (("LLM error: ").data
          ++ (List.dropWhile isPySpace m.reverse).reverse)) = true := by
      apply containsSub_of_isPrefixOf
      show List.isPrefixOf _ (List.map Char.toLower _) = true
      rw [List.map_append]
      rfl
    rw [Bool.or_eq_true, Bool.or_eq_true]
    exact Or.inr h6

/-! ## Claim C1 -/

/-- C1: for every environment (table contents, passage-index failure mode,
API-key presence, backend outcome) and every input query string, `ask_agent`
produces a text answer and never propagates an exception: all failure modes
(absent data, retrieval failure, backend failure, unrecognised queries)
degrade to a well-formed answer. -/
theorem C1_ask_agent_never_raises (env : Env) (q : List Char) :
    ∃ a, ask_agentE env q = .ok a := by
  have hrag := ragPartE_ok env q
  simp only [ask_agentE, hrag, bind, Except.bind]
  by_cases hk : env.apiKey = false
  · simp only [hk, if_pos]
    exact ⟨_, rfl⟩
  · rw [if_neg (by simpa using hk)]
    rcases hllm : env.llm with e | c
    · rcases e with _ | n | m
      · rw [compose_llmE_auth _ _ hllm]
        dsimp only
        by_cases hle : looks_like_error
            (("Authentication error: Missing/invalid OPENAI_API_KEY.").data) = true
        · rw [if_pos hle]; exact ⟨_, rfl⟩
        · rw [if_neg hle]; exact ⟨_, rfl⟩
      · rw [compose_llmE_status _ _ hllm]
        dsimp only
        by_cases hle : looks_like_error
            (("OpenAI API error (").data ++ intToStr n ++ (").").data) = true
        · rw [if_pos hle]; exact ⟨_, rfl⟩
        · rw [if_neg hle]; exact ⟨_, rfl⟩
      · rw [compose_llmE_generic _ _ hllm]
        dsimp only
        by_cases hle : looks_like_error (("LLM error: ").data ++ m) = true
        · rw [if_pos hle]; exact ⟨_, rfl⟩
        · rw [if_neg hle]; exact ⟨_, rfl⟩
    · rw [compose_llmE_ok _ _ hllm]
      dsimp only
      by_cases hle : looks_like_error (pyStrip c) = true
      · rw [if_pos hle]; exact ⟨_, rfl⟩
      · rw [if_neg hle]; exact ⟨_, rfl⟩

/-! ## Claim C6 -/

/-- C6: whenever the generative backend fails (authentication failure, status
error, or any other exception), or no API key is configured, the pipeline does
not raise and returns exactly the deterministic local composition of the same
evidence bundle (same prose fragments, tiny table and citations). -/
theorem C6_backend_failure_falls_back (env : Env) (q : List Char)
    (h : env.apiKey = false ∨ ∃ e, env.llm = .error e) :
    ask_agentE env q
      = .ok (compose_fallback (assemble env q).tool_outputs
          (assemble env q).citations (assemble env q).forced_table_md) := by
  have hrag := ragPartE_ok env q
  simp only [ask_agentE, hrag, bind, Except.bind]
  by_cases hk : env.apiKey = false
  · simp only [hk, if_pos]
    simp [assemble, pure, Except.pure]
  · rcases h with h | ⟨e, he⟩
    · exact absurd h hk
    · rw [if_neg (by simpa using hk)]
      rcases e with _ | n | m
      · rw [compose_llmE_auth _ _ he]
        dsimp only
        rw [if_pos lle_auth]
        simp [assemble, pure, Except.pure]
      · rw [compose_llmE_status _ _ he]
        dsimp only
        rw [if_pos (lle_status n)]
        simp [assemble, pure, Except.pure]
      · rw [compose_llmE_generic _ _ he]
        dsimp only
        rw [if_pos (lle_generic m)]
        simp [assemble, pure, Except.pure]

/-! ## Claim C2 -/

/-- C2: the claim fails on the code.  At the failing input the backend reply
carries one `**Citations:**` footer; the sanitizer preserves it verbatim and
the pipeline then appends its own footer, so the final output contains the
marker twice, not at most once. -/
theorem C2_double_footer_eval :
    (ask_agentE envFooterEcho qStage2022).map (countSub footerMarker)
      = .ok 2 := by
  rfl

/-! ## Claim C3 -/

/-- C3: counterexample.  In `qDupYears` the year 2015 occurs twice before
2016.  The claim says the trend lookup consumes the first two distinct years
(2015 and 2016); the code consumes the first two occurrences (2015 and 2015),
and the resulting bundles differ. -/
theorem C3_counterexample :
    findYears qDupYears = [2015, 2015, 2016]
    ∧ (findYears qDupYears).eraseDups = [2015, 2016]
    ∧ detect_intent qDupYears = Intent.trend
    ∧ assemble (mkEnv dbTwoYears) qDupYears
        ≠ assembleClaimDistinct (mkEnv dbTwoYears) qDupYears := by
  refine ⟨rfl, rfl, rfl, ?_⟩
  decide

/-- Digits have code points between 48 and 57. -/
theorem digit_bounds {c : Char} (h : c.isDigit = true) :
    48 ≤ c.toNat ∧ c.toNat ≤ 57 := by
  simp [Char.isDigit] at h
  exact ⟨UInt32.le_toNat_of_le (by decide) h.1, UInt32.toNat_le_of_le (by decide) h.2⟩

/-- Every year the fueled scanner extracts matches `20\\d\\d`. -/
theorem findYearsFuel_range :
    ∀ n s, ∀ y ∈ findYearsFuel n s, (2000 : Int) ≤ y ∧ y ≤ 2099 := by
  intro n s
  induction n, s using findYearsFuel.induct with
  | case1 x => intro y hy; simp [findYearsFuel] at hy
  | case2 n => intro y hy; simp [findYearsFuel] at hy
  | case3 n c d rest hdig ih =>
    intro y hy
    simp only [findYearsFuel] at hy
    rw [if_pos hdig] at hy
    rcases List.mem_cons.mp hy with hy | hy
    · subst hy
      rw [Bool.and_eq_true] at hdig
      have hc := digit_bounds hdig.1
      have hd := digit_bounds hdig.2
      have h0 : '0'.toNat = 48 := rfl
      have hcv : digitVal c ≤ 9 := by unfold digitVal; omega
      have hdv : digitVal d ≤ 9 := by unfold digitVal; omega
      constructor
      · have h : (2000 : Nat) ≤ 2000 + 10 * digitVal c + digitVal d := by omega
        exact_mod_cast h
      · have h : 2000 + 10 * digitVal c + digitVal d ≤ 2099 := by omega
        exact_mod_cast h
    · exact ih y hy
  | case4 n c d rest hdig ih =>
    intro y hy
    simp only [findYearsFuel] at hy
    rw [if_neg hdig] at hy
    exact ih y hy
  | case5 n t0 hne ih =>
    intro y hy
    rw [findYearsFuel.eq_def] at hy
    split at hy
    · simp at hy
    · simp at hy
    · rename_i x1 x2 n2 t2 hf he
      injection he with hh ht
      obtain rfl := Nat.succ.inj hf
      subst ht
      split at hy
      · rename_i t2 c d rest
        exact (hne c d rest rfl).elim
      · exact ih y hy
    · rename_i x1 x2 n2 hd2 t2 hcond hf he
      injection he with hh ht
      exact (hcond hh.symm).elim
  | case6 n head t hb ih =>
    intro y hy
    rw [findYearsFuel.eq_def] at hy
    split at hy
    · simp at hy
    · simp at hy
    · rename_i x1 x2 n2 t2 hf he
      injection he with hh ht
      exact (hb hh).elim
    · rename_i x1 x2 n2 hd2 t2 hcond hf he
      injection he with hh ht
      obtain rfl := Nat.succ.inj hf
      subst ht
      exact ih y hy

/-- Every year the router extracts matches `20\\d\\d`. -/
theorem findYears_range : ∀ s, ∀ y ∈ findYears s, (2000 : Int) ≤ y ∧ y ≤ 2099 :=
  fun s => findYearsFuel_range s.length s

/-- C3, amended: the router extracts every `20\d\d` token in order of first
appearance, and the intent-specific lookups consume the first one or two
*occurrences* (a duplicated year counts twice): the structured step depends
only on `years[0]` and `years[1]`; the trend range lookup runs over
`years[0]` and `years[1]`, the stage lookup uses `years[0]` (year detection
routes any non-compare query with two or more years to trend, so a stage
query carries exactly one), and the compare pair is `(years[0], years[1])`,
whatever comes later in the list. -/
theorem C3_first_two_occurrences (env : Env) (q : List Char) :
    (∀ y ∈ findYears q, (2000 : Int) ≤ y ∧ y ≤ 2099)
    ∧ (∀ y0 y1 rest, findYears q = y0 :: y1 :: rest →
        sqlPart env.db (detect_intent q) (extract_block q) (findYears q)
          = sqlPart env.db (detect_intent q) (extract_block q) [y0, y1])
    ∧ (∀ y0 y1 rest, findYears q = y0 :: y1 :: rest →
        detect_intent q = Intent.trend →
        (assemble env q).tool_outputs.head?
          = some (match get_trend env.db (extract_block q) y0 y1 with
            | .ok tr => trendFragment (extract_block q) tr (tinyTableMd tr.tiny_table)
            | .error m => m)
        ∧ (assemble env q).forced_table_md
          = (match get_trend env.db (extract_block q) y0 y1 with
            | .ok tr => tinyTableMd tr.tiny_table
            | .error _ => []))
    ∧ (∀ y0 rest, findYears q = y0 :: rest →
        detect_intent q = Intent.stage_lookup →
        (assemble env q).tool_outputs.head?
          = some (match get_stage env.db (extract_block q) y0 with
            | .ok st => stageFragment (extract_block q) y0 st
            | .error m => m))
    ∧ (∀ y0 y1 rest, findYears q = y0 :: y1 :: rest →
        detect_intent q = Intent.compare →
        (assemble env q).tool_outputs.head?
          = some (("Comparison:\n").data
            ++ (("Year | Level (m)\n-----|----------\n").data
              ++ (match get_level env.db (extract_block q) y0 with
                | .ok o => intToStr y0 ++ (" | ").data ++ fmt2 o.level_m
                | .error _ => intToStr y0 ++ (" | \u2014").data)
              ++ ("\n").data
              ++ (match get_level env.db (extract_block q) y1 with
                | .ok o => intToStr y1 ++ (" | ").data ++ fmt2 o.level_m
                | .error _ => intToStr y1 ++ (" | \u2014").data)))) := by
  refine ⟨findYears_range q, ?_, ?_, ?_, ?_⟩
  · intro y0 y1 rest hy
    rw [hy]
    cases detect_intent q <;> rfl
  · intro y0 y1 rest hy hi
    constructor <;>
    · rcases hgt : get_trend env.db (extract_block q) y0 y1 with m | tr <;>
        simp [assemble, sqlPart, hy, hi, hgt]
  · intro y0 rest hy hi
    rcases hgs : get_stage env.db (extract_block q) y0 with m | st <;>
      simp [assemble, sqlPart, hy, hi, hgs]
  · intro y0 y1 rest hy hi
    rcases hv1 : get_level env.db (extract_block q) y0 with m1 | o1 <;>
      rcases hv2 : get_level env.db (extract_block q) y1 with m2 | o2 <;>
        simp [assemble, sqlPart, hy, hi, hv1, hv2]

/-- Witness for the amended C3: at `qDupYears` the trend endpoints are the
first two occurrences 2015 and 2015; at `qStage2022` the stage year is
`years[0]`; at `qCompareDup` the compared pair is (2015, 2015). -/
theorem C3_first_two_occurrences_witness :
    (∀ y ∈ findYears qDupYears, (2000 : Int) ≤ y ∧ y ≤ 2099)
    ∧ sqlPart dbTwoYears (detect_intent qDupYears) (extract_block qDupYears)
        (findYears qDupYears)
      = sqlPart dbTwoYears (detect_intent qDupYears) (extract_block qDupYears)
        [2015, 2015]
    ∧ (assemble (mkEnv dbTwoYears) qDupYears).tool_outputs.head?
        = some (match get_trend dbTwoYears (extract_block qDupYears) 2015 2015 with
          | .ok tr => trendFragment (extract_block qDupYears) tr (tinyTableMd tr.tiny_table)
          | .error m => m)
    ∧ (assemble (mkEnv dbStage2022) qStage2022).tool_outputs.head?
        = some (match get_stage dbStage2022 (extract_block qStage2022) 2022 with
          | .ok st => stageFragment (extract_block qStage2022) 2022 st
          | .error m => m)
    ∧ (assemble (mkEnv dbTwoYears) qCompareDup).tool_outputs.head?
        = some (("Comparison:\n").data
          ++ (("Year | Level (m)\n-----|----------\n").data
            ++ (match get_level dbTwoYears (extract_block qCompareDup) 2015 with
              | .ok o => intToStr 2015 ++ (" | ").data ++ fmt2 o.level_m
              | .error _ => intToStr 2015 ++ (" | \u2014").data)
            ++ ("\n").data
            ++ (match get_level dbTwoYears (extract_block qCompareDup) 2015 with
              | .ok o => intToStr 2015 ++ (" | ").data ++ fmt2 o.level_m
              | .error _ => intToStr 2015 ++ (" | \u2014").data))) :=
  ⟨(C3_first_two_occurrences (mkEnv dbTwoYears) qDupYears).1,
    (C3_first_two_occurrences (mkEnv dbTwoYears) qDupYears).2.1 2015 2015 [2016] rfl,
    ((C3_first_two_occurrences (mkEnv dbTwoYears) qDupYears).2.2.1 2015 2015 [2016]
      rfl rfl).1,
    (C3_first_two_occurrences (mkEnv dbStage2022) qStage2022).2.2.2.1 2022 [] rfl rfl,
    (C3_first_two_occurrences (mkEnv dbTwoYears) qCompareDup).2.2.2.2 2015 2015 [2016]
      rfl rfl⟩

/-- Witness for C6 at a concrete input: key configured, backend raises an
authentication error, and the result is the deterministic composition. -/
theorem C6_backend_failure_falls_back_witness :
    (Env.mk dbStage2022 none true (.error .auth)).llm = .error .auth
    ∧ ask_agentE (Env.mk dbStage2022 none true (.error .auth)) qStage2022
      = .ok (compose_fallback
          (assemble (Env.mk dbStage2022 none true (.error .auth)) qStage2022).tool_outputs
          (assemble (Env.mk dbStage2022 none true (.error .auth)) qStage2022).citations
          (assemble (Env.mk dbStage2022 none true (.error .auth)) qStage2022).forced_table_md) :=
  ⟨rfl, C6_backend_failure_falls_back (Env.mk dbStage2022 none true (.error .auth))
    qStage2022 (Or.inr ⟨.auth, rfl⟩)⟩

/-! ## Claim C4 -/

/-- C4: counterexample.  For the trend query `qTrendHit` over an empty store,
the range lookup returns zero rows, yet the bundle has a second fragment (the
retrieved policy passage) and a non-empty citation set, because the passage
index always runs after the structured step. -/
theorem C4_counterexample :
    detect_intent qTrendHit = Intent.trend
    ∧ findYears qTrendHit = [2020, 2021]
    ∧ fetch_rows ([] : List Row) (extract_block qTrendHit) 2020 2021 = []
    ∧ (assemble (mkEnv []) qTrendHit).tool_outputs.length = 2
    ∧ (assemble (mkEnv []) qTrendHit).citations
        = [("Doc: interventions.txt").data] :=
  ⟨rfl, rfl, rfl, rfl, rfl⟩

/-- C4, amended: for a trend-intent query with two years whose range lookup
returns zero rows, *provided passage retrieval raises nothing and returns no
passages*, the bundle's sole prose fragment is the literal string
`insufficient data for <entity> <y0>-<y1>` and its citation set is empty. -/
theorem C4_insufficient_data (env : Env) (q : List Char) (y0 y1 : Int)
    (rest : List Int) (hi : detect_intent q = Intent.trend)
    (hy : findYears q = y0 :: y1 :: rest)
    (hf : fetch_rows env.db (extract_block q) y0 y1 = [])
    (hr : env.ragExc = none) (hh : ragSearch q 3 = []) :
    (assemble env q).tool_outputs
      = [("insufficient data for ").data ++ extract_block q ++ (" ").data
          ++ intToStr y0 ++ ("-").data ++ intToStr y1]
    ∧ (assemble env q).citations = [] := by
  constructor <;>
    simp [assemble, sqlPart, hi, hy, get_trend, hf, ragPart, hr, hh]

/-- Witness for the amended C4: the trend query `qTrendMiss` over an empty
store, whose tokens hit no corpus passage. -/
theorem C4_insufficient_data_witness :
    (assemble (mkEnv []) qTrendMiss).tool_outputs
      = [("insufficient data for ").data ++ extract_block qTrendMiss ++ (" ").data
          ++ intToStr 2015 ++ ("-").data ++ intToStr 2016]
    ∧ (assemble (mkEnv []) qTrendMiss).citations = [] :=
  C4_insufficient_data (mkEnv []) qTrendMiss 2015 2016 [] rfl rfl rfl rfl rfl

/-! ## Claim C5 -/

/-- C5: counterexample.  For the compare query `qCompareHit` with exactly one
of the two years resolving, the bundle's citation set has three entries, not
one: the structured citation plus two `Doc:` citations from the passage
index. -/
theorem C5_counterexample :
    detect_intent qCompareHit = Intent.compare
    ∧ findYears qCompareHit = [2020, 2021]
    ∧ (get_level dbOne2020 (extract_block qCompareHit) 2020).isOk = true
    ∧ (get_level dbOne2020 (extract_block qCompareHit) 2021).isOk = false
    ∧ (assemble (mkEnv dbOne2020) qCompareHit).citations.length = 3 :=
  ⟨rfl, rfl, rfl, rfl, rfl⟩

/-- C5, amended: for a compare-intent query with two years where exactly one
of the two level lookups resolves, the 2-row tiny table shows the level to
two decimals in the resolved year's row and `—` in exactly the unresolved
year's row; *provided passage retrieval contributes no documents*, the
citation set contains exactly the one structured citation. -/
theorem C5_compare_partial (env : Env) (q : List Char) (y1 y2 : Int)
    (rest : List Int) (hi : detect_intent q = Intent.compare)
    (hy : findYears q = y1 :: y2 :: rest)
    (hx : (get_level env.db (extract_block q) y1).isOk
        ≠ (get_level env.db (extract_block q) y2).isOk)
    (hh : ragDocs env q = []) :
    (assemble env q).citations.length = 1
    ∧ ((∃ o1, get_level env.db (extract_block q) y1 = .ok o1
        ∧ (assemble env q).forced_table_md
            = ("Year | Level (m)\n-----|----------\n").data
              ++ (intToStr y1 ++ (" | ").data ++ fmt2 o1.level_m)
              ++ ("\n").data ++ (intToStr y2 ++ (" | —").data)
        ∧ (assemble env q).citations = [yearCitation o1.source y1])
      ∨ (∃ o2, get_level env.db (extract_block q) y2 = .ok o2
        ∧ (assemble env q).forced_table_md
            = ("Year | Level (m)\n-----|----------\n").data
              ++ (intToStr y1 ++ (" | —").data)
              ++ ("\n").data ++ (intToStr y2 ++ (" | ").data ++ fmt2 o2.level_m)
        ∧ (assemble env q).citations = [yearCitation o2.source y2])) := by
  have hrc : (ragPart env q).2 = [] := hh
  rcases h1 : get_level env.db (extract_block q) y1 with m1 | o1 <;>
    rcases h2 : get_level env.db (extract_block q) y2 with m2 | o2
  · rw [h1, h2] at hx; simp [Except.isOk, Except.toBool] at hx
  · refine ⟨?_, Or.inr ⟨o2, rfl, ?_, ?_⟩⟩ <;>
      simp [assemble, sqlPart, hi, hy, h1, h2, hrc]
  · refine ⟨?_, Or.inl ⟨o1, rfl, ?_, ?_⟩⟩ <;>
      simp [assemble, sqlPart, hi, hy, h1, h2, hrc]
  · rw [h1, h2] at hx; simp [Except.isOk, Except.toBool] at hx

/-- Witness for the amended C5: the compare query `qCompareMiss` over a store
that resolves only 2015; the 2016 row shows `—` and there is exactly one
citation. -/
theorem C5_compare_partial_witness :
    (assemble (mkEnv dbOne2015) qCompareMiss).citations.length = 1
    ∧ ((∃ o1, get_level dbOne2015 (extract_block qCompareMiss) 2015 = .ok o1
        ∧ (assemble (mkEnv dbOne2015) qCompareMiss).forced_table_md
            = ("Year | Level (m)\n-----|----------\n").data
              ++ (intToStr 2015 ++ (" | ").data ++ fmt2 o1.level_m)
              ++ ("\n").data ++ (intToStr 2016 ++ (" | —").data)
        ∧ (assemble (mkEnv dbOne2015) qCompareMiss).citations
            = [yearCitation o1.source 2015])
      ∨ (∃ o2, get_level dbOne2015 (extract_block qCompareMiss) 2016 = .ok o2
        ∧ (assemble (mkEnv dbOne2015) qCompareMiss).forced_table_md
            = ("Year | Level (m)\n-----|----------\n").data
              ++ (intToStr 2015 ++ (" | —").data)
              ++ ("\n").data ++ (intToStr 2016 ++ (" | ").data ++ fmt2 o2.level_m)
        ∧ (assemble (mkEnv dbOne2015) qCompareMiss).citations
            = [yearCitation o2.source 2016])) :=
  C5_compare_partial (mkEnv dbOne2015) qCompareMiss 2015 2016 []
    rfl rfl (by decide) rfl

/-! ## Claim C7 -/

/-- An element of `insRow r l` is `r` or an element of `l`. -/
theorem mem_insRow {a r : Row} {l : List Row} (h : a ∈ insRow r l) :
    a = r ∨ a ∈ l := by
  induction l with
  | nil => simpa [insRow] using h
  | cons x xs ih =>
    by_cases hc : r.year ≤ x.year
    · rw [insRow, if_pos hc] at h
      rcases List.mem_cons.mp h with h | h
      · exact Or.inl h
      · exact Or.inr h
    · rw [insRow, if_neg hc] at h
      rcases List.mem_cons.mp h with h | h
      · exact Or.inr (h ▸ List.mem_cons_self x xs)
      · rcases ih h with h | h
        · exact Or.inl h
        · exact Or.inr (List.mem_cons_of_mem _ h)

/-- Insertion preserves the nondecreasing-by-year invariant. -/
theorem pairwise_insRow {r : Row} {l : List Row}
    (h : l.Pairwise (fun a b => a.year ≤ b.year)) :
    (insRow r l).Pairwise (fun a b => a.year ≤ b.year) := by
  induction l with
  | nil => simp [insRow]
  | cons x xs ih =>
    rw [List.pairwise_cons] at h
    by_cases hc : r.year ≤ x.year
    · rw [insRow, if_pos hc]
      refine List.Pairwise.cons ?_ (List.Pairwise.cons h.1 h.2)
      intro b hb
      rcases List.mem_cons.mp hb with rfl | hb
      · exact hc
      · exact le_trans hc (h.1 b hb)
    · rw [insRow, if_neg hc]
      refine List.Pairwise.cons ?_ (ih h.2)
      intro b hb
      rcases mem_insRow hb with rfl | hb
      · omega
      · exact h.1 b hb

/-- The insertion sort modelling `ORDER BY year ASC` is nondecreasing. -/
theorem pairwise_sortRows :
    ∀ l : List Row, (sortRows l).Pairwise (fun a b => a.year ≤ b.year)
  | [] => by simp [sortRows]
  | x :: xs => by rw [sortRows]; exact pairwise_insRow (pairwise_sortRows xs)

/-- C7: whenever the inclusive range lookup finds at least one record, the
trend succeeds, the reported slope is (level of last − level of first) /
max(1, year of last − year of first), the records come back ordered by year
ascending, and the tiny table is exactly the last at most five records. -/
theorem C7_trend_slope_and_table (db : List Row) (block : List Char)
    (sy ey : Int) (h : fetch_rows db block sy ey ≠ []) :
    ∃ tr, get_trend db block sy ey = .ok tr
      ∧ (∀ rfirst ∈ (fetch_rows db block sy ey).head?,
         ∀ rlast ∈ (fetch_rows db block sy ey).getLast?,
           tr.slope_per_year = (rlast.level_m - rfirst.level_m)
             / ((max 1 (rlast.year - rfirst.year) : Int) : Rat))
      ∧ (fetch_rows db block sy ey).Pairwise (fun a b => a.year ≤ b.year)
      ∧ tr.tiny_table.length ≤ 5
      ∧ tr.tiny_table
          = ((fetch_rows db block sy ey).drop
              ((fetch_rows db block sy ey).length - 5)).map
              (fun r => (r.year, r.level_m)) := by
  rcases hf : fetch_rows db block sy ey with _ | ⟨r0, rest⟩
  · exact absurd hf h
  · have hg : get_trend db block sy ey
        = .ok { block := block, start := r0.year,
                stop := ((r0 :: rest).getLastD r0).year,
                slope_per_year := (((r0 :: rest).getLastD r0).level_m - r0.level_m)
                  / ((max 1 (((r0 :: rest).getLastD r0).year - r0.year) : Int) : Rat),
                latest_stage := ((r0 :: rest).getLastD r0).stage,
                tiny_table := ((r0 :: rest).drop ((r0 :: rest).length - 5)).map
                  (fun r => (r.year, r.level_m)),
                source := ("SQLite gw_levels").data } := by
      unfold get_trend
      rw [hf]
    refine ⟨_, hg, ?_, ?_, ?_, ?_⟩
    · intro rf hrf rl hrl
      rw [List.head?_cons, Option.mem_def, Option.some.injEq] at hrf
      have hlast : (r0 :: rest).getLast? = some ((r0 :: rest).getLastD r0) := by
        simp [List.getLast?_cons, List.getLastD_eq_getLast?]
      rw [Option.mem_def, hlast, Option.some.injEq] at hrl
      subst hrf
      subst hrl
      rfl
    · rw [← hf]
      unfold fetch_rows
      exact pairwise_sortRows _
    · simp only [TrendOk.mk.injEq]
      simp [List.length_drop]
      omega
    · rfl

/-- Witness for C7 on two concrete Block A records. -/
theorem C7_trend_slope_and_table_witness :
    fetch_rows dbTwoYears (("Block A").data) 2015 2016 ≠ []
    ∧ (∃ tr, get_trend dbTwoYears (("Block A").data) 2015 2016 = .ok tr
      ∧ (∀ rfirst ∈ (fetch_rows dbTwoYears (("Block A").data) 2015 2016).head?,
         ∀ rlast ∈ (fetch_rows dbTwoYears (("Block A").data) 2015 2016).getLast?,
           tr.slope_per_year = (rlast.level_m - rfirst.level_m)
             / ((max 1 (rlast.year - rfirst.year) : Int) : Rat))
      ∧ (fetch_rows dbTwoYears (("Block A").data) 2015 2016).Pairwise
          (fun a b => a.year ≤ b.year)
      ∧ tr.tiny_table.length ≤ 5
      ∧ tr.tiny_table
          = ((fetch_rows dbTwoYears (("Block A").data) 2015 2016).drop
              ((fetch_rows dbTwoYears (("Block A").data) 2015 2016).length - 5)).map
              (fun r => (r.year, r.level_m))) :=
  ⟨by decide,
   C7_trend_slope_and_table dbTwoYears (("Block A").data) 2015 2016 (by decide)⟩

/-! ## Claim C10 -/

/-- C10: counterexample.  The lookups echo the caller's spelling of the block
(in the `block` field on success and inside the insufficiency message on
failure), so two block arguments differing only in case do *not* give equal
results. -/
theorem C10_counterexample :
    lowerStr (("Block A").data) = lowerStr (("BLOCK A").data)
    ∧ get_stage dbStage2022 (("Block A").data) 2022
        ≠ get_stage dbStage2022 (("BLOCK A").data) 2022
    ∧ get_level dbStage2022 (("Block A").data) 2020
        ≠ get_level dbStage2022 (("BLOCK A").data) 2020 := by
  refine ⟨rfl, ?_, ?_⟩ <;> decide

/-- C10, amended: for block arguments that agree after case folding, the
three lookups agree on everything except the echoed block string and the
text of the insufficiency message: success/failure status, years, levels,
stages, slope, tiny table and source label are all equal. -/
theorem C10_case_insensitive_core (db : List Row) (b1 b2 : List Char)
    (sy ey y : Int) (h : lowerStr b1 = lowerStr b2) :
    trendCore (get_trend db b1 sy ey) = trendCore (get_trend db b2 sy ey)
    ∧ stageCore (get_stage db b1 y) = stageCore (get_stage db b2 y)
    ∧ levelCore (get_level db b1 y) = levelCore (get_level db b2 y) := by
  have h1 : fetch_rows db b1 sy ey = fetch_rows db b2 sy ey := by
    unfold fetch_rows
    rw [h]
  have h2 : (db.filter fun r => lowerStr r.block == lowerStr b1 && r.year == y)
      = (db.filter fun r => lowerStr r.block == lowerStr b2 && r.year == y) := by
    rw [h]
  refine ⟨?_, ?_, ?_⟩
  · unfold get_trend
    rw [h1]
    rcases hf : fetch_rows db b2 sy ey with _ | ⟨r0, rest⟩ <;> simp [trendCore]
  · unfold get_stage
    rw [h2]
    rcases hh : List.find? (fun r => lowerStr r.block == lowerStr b2 && r.year == y) db
        with _ | r <;>
      simp [stageCore, hh]
  · unfold get_level
    rw [h2]
    rcases hh : List.find? (fun r => lowerStr r.block == lowerStr b2 && r.year == y) db
        with _ | r <;>
      simp [levelCore, hh]

/-- Witness for the amended C10 at `Block A` / `BLOCK A`. -/
theorem C10_case_insensitive_core_witness :
    lowerStr (("Block A").data) = lowerStr (("BLOCK A").data)
    ∧ (trendCore (get_trend dbStage2022 (("Block A").data) 2020 2022)
        = trendCore (get_trend dbStage2022 (("BLOCK A").data) 2020 2022)
      ∧ stageCore (get_stage dbStage2022 (("Block A").data) 2022)
          = stageCore (get_stage dbStage2022 (("BLOCK A").data) 2022)
      ∧ levelCore (get_level dbStage2022 (("Block A").data) 2022)
          = levelCore (get_level dbStage2022 (("BLOCK A").data) 2022)) :=
  ⟨rfl, C10_case_insensitive_core dbStage2022 (("Block A").data)
    (("BLOCK A").data) 2020 2022 2022 rfl⟩

/-- Whitespace characters are unchanged by lowercasing. -/
theorem ws_toLower {c : Char} (h : isPySpace c = true) : c.toLower = c := by
  unfold isPySpace at h
  simp at h
  rcases h with ((((rfl | rfl) | rfl) | rfl) | rfl) | rfl <;> rfl

/-- Whitespace characters are not token characters. -/
theorem ws_not_tok {c : Char} (h : isPySpace c = true) : isTokChar c = false := by
  unfold isPySpace at h
  simp at h
  rcases h with ((((rfl | rfl) | rfl) | rfl) | rfl) | rfl <;> rfl

/-- Token characters are not whitespace. -/
theorem tok_not_ws {c : Char} (h : isTokChar c = true) : isPySpace c = false := by
  by_cases hw : isPySpace c = true
  · rw [ws_not_tok hw] at h
    exact absurd h (by simp)
  · simpa using hw

/-- A successful case-insensitive literal match decomposes the input. -/
theorem matchLitCI_some :
    ∀ (p s r : List Char), matchLitCI p s = some r →
      ∃ pre, s = pre ++ r ∧ lowerStr pre = lowerStr p := by
  intro p
  induction p with
  | nil =>
    intro s r h
    simp [matchLitCI] at h
    exact ⟨[], by simp [h], rfl⟩
  | cons pc pt ih =>
    intro s r h
    cases s with
    | nil => simp [matchLitCI] at h
    | cons c t =>
      rw [matchLitCI] at h
      by_cases hc : pc.toLower = c.toLower
      · rw [if_pos hc] at h
        obtain ⟨pre, hpre, hlow⟩ := ih t r h
        exact ⟨c :: pre, by simp [hpre], by simp [lowerStr] at hlow ⊢; exact ⟨hc.symm, hlow⟩⟩
      · rw [if_neg hc] at h
        exact absurd h (by simp)

/-- Conversely, a case-insensitively equal prefix always matches. -/
theorem matchLitCI_of_lower :
    ∀ (p pre rest : List Char), lowerStr pre = lowerStr p →
      matchLitCI p (pre ++ rest) = some rest := by
  intro p
  induction p with
  | nil =>
    intro pre rest h
    have : pre = [] := by
      have := congrArg List.length h
      simpa [lowerStr] using this
    subst this
    rfl
  | cons pc pt ih =>
    intro pre rest h
    cases pre with
    | nil => simp [lowerStr] at h
    | cons c t =>
      simp only [lowerStr, List.map_cons, List.cons.injEq] at h
      rw [List.cons_append, matchLitCI, if_pos h.1.symm]
      exact ih t rest h.2

/-- `takeWhile` over a satisfying block followed by a failing head. -/
theorem takeWhile_all_append {p : Char → Bool} :
    ∀ (w tok : List Char), (∀ c ∈ w, p c = true) →
      (∀ c0, tok.head? = some c0 → p c0 = false) →
      List.takeWhile p (w ++ tok) = w := by
  intro w
  induction w with
  | nil =>
    intro tok hw htok
    cases tok with
    | nil => rfl
    | cons c0 t0 =>
      simp [List.takeWhile, htok c0 rfl]
  | cons c w0 ih =>
    intro tok hw htok
    rw [List.cons_append, List.takeWhile_cons, hw c (List.mem_cons_self c w0)]
    simp [ih tok (fun d hd => hw d (List.mem_cons_of_mem _ hd)) htok]

/-- `takeWhile` of an all-satisfying list. -/
theorem takeWhile_all {p : Char → Bool} :
    ∀ (l : List Char), (∀ c ∈ l, p c = true) → List.takeWhile p l = l := by
  intro l h
  have := takeWhile_all_append (p := p) l [] h (by intro c0 hc0; simp at hc0)
  simpa using this

/-- Shape of a `block\\s+token` match: a case variant of `block`, a nonempty
whitespace run, a nonempty token run. -/
theorem searchBlock_shape :
    ∀ (q m : List Char), searchBlock q = some m →
      ∃ pre w tok, m = pre ++ w ++ tok ∧ lowerStr pre = ("block").data
        ∧ w ≠ [] ∧ (∀ c ∈ w, isPySpace c = true)
        ∧ tok ≠ [] ∧ (∀ c ∈ tok, isTokChar c = true) := by
  intro q
  induction q with
  | nil => intro m h; simp [searchBlock] at h
  | cons c t ih =>
    intro m h
    rw [searchBlock] at h
    rcases hbp : matchBlockParts (c :: t) with _ | ⟨w, tok⟩
    · rw [hbp] at h
      exact ih m h
    · rw [hbp] at h
      simp only [Option.some.injEq] at h
      subst h
      unfold matchBlockParts at hbp
      rcases hml : matchLitCI (("block").data) (c :: t) with _ | r1
      · rw [hml] at hbp; simp at hbp
      · rw [hml] at hbp
        simp only at hbp
        by_cases hwe : (List.takeWhile isPySpace r1).isEmpty = true
        · rw [if_pos hwe] at hbp; simp at hbp
        · rw [if_neg hwe] at hbp
          by_cases hte : (List.takeWhile isTokChar
              (r1.drop (List.takeWhile isPySpace r1).length)).isEmpty = true
          · rw [if_pos hte] at hbp; simp at hbp
          · rw [if_neg hte] at hbp
            simp only [Option.some.injEq, Prod.mk.injEq] at hbp
            obtain ⟨pre, hsplit, hlow⟩ := matchLitCI_some _ _ _ hml
            have hprelen : pre.length = 5 := by
              have := congrArg List.length hlow
              simpa [lowerStr] using this
            have htake : (c :: t).take 5 = pre := by
              rw [hsplit, ← hprelen, List.take_left]
            refine ⟨pre, w, tok, ?_, ?_, ?_, ?_, ?_, ?_⟩
            · rw [htake]
            · simpa using hlow
            · rw [← hbp.1]
              intro hcontra
              rw [hcontra] at hwe
              exact hwe rfl
            · intro d hd
              rw [← hbp.1] at hd
              exact List.mem_takeWhile_imp hd
            · rw [← hbp.2]
              intro hcontra
              rw [hcontra] at hte
              exact hte rfl
            · intro d hd
              rw [← hbp.2] at hd
              exact List.mem_takeWhile_imp hd

/-- A character whose lowercase form is not whitespace is not whitespace. -/
theorem not_ws_of_toLower {c x : Char} (h : c.toLower = x)
    (hx : isPySpace x = false) : isPySpace c = false := by
  by_cases hw : isPySpace c = true
  · rw [ws_toLower hw] at h
    subst h
    simpa using hx
  · simpa using hw

/-- `str.strip()` keeps a string with non-whitespace first and last
characters. -/
theorem pyStrip_keep {c d : Char} {mid : List Char}
    (hc : isPySpace c = false) (hd : isPySpace d = false) :
    pyStrip (c :: (mid ++ [d])) = c :: (mid ++ [d]) := by
  unfold pyStrip
  rw [dropWhile_cons_false hc]
  have hrev : (c :: (mid ++ [d])).reverse = d :: (mid.reverse ++ [c]) := by
    simp
  rw [hrev, dropWhile_cons_false hd, ← hrev, List.reverse_reverse]

/-- The trailing-punctuation strip keeps a string whose last character is a
word character, hyphen or space. -/
theorem rstripNonWord_keep {d : Char} {X : List Char}
    (hd : (!(isWChar d || d = '-' || d = ' ')) = false) :
    rstripNonWord (X ++ [d]) = X ++ [d] := by
  unfold rstripNonWord
  rw [List.reverse_append]
  simp only [List.reverse_cons, List.reverse_nil, List.nil_append, List.singleton_append]
  rw [dropWhile_cons_false hd]
  simp

/-- Token characters pass the trailing-punctuation predicate. -/
theorem tok_keeps {d : Char} (h : isTokChar d = true) :
    (!(isWChar d || d = '-' || d = ' ')) = false := by
  unfold isTokChar at h
  unfold isWChar
  rcases Bool.or_eq_true_iff.mp h with h | h
  · rcases Bool.or_eq_true_iff.mp h with h | h
    · simp [Char.isAlphanum, h]
    · simp [Char.isAlphanum, h]
  · simp [h]

/-- Re-matching `block\\s+token` against a matched text recovers the runs. -/
theorem matchBlockParts_recover {pre w tok : List Char}
    (hlow : lowerStr pre = ("block").data)
    (hw : w ≠ []) (hwall : ∀ c ∈ w, isPySpace c = true)
    (ht : tok ≠ []) (htall : ∀ c ∈ tok, isTokChar c = true) :
    matchBlockParts (pre ++ w ++ tok) = some (w, tok) := by
  unfold matchBlockParts
  have hm : matchLitCI (("block").data) (pre ++ (w ++ tok)) = some (w ++ tok) :=
    matchLitCI_of_lower _ pre (w ++ tok) (by rw [hlow]; rfl)
  have htw : List.takeWhile isPySpace (w ++ tok) = w := by
    refine takeWhile_all_append w tok hwall ?_
    intro c0 hc0
    cases tok with
    | nil => simp at hc0
    | cons d t0 =>
      rw [List.head?_cons, Option.some.injEq] at hc0
      subst hc0
      exact tok_not_ws (htall d (List.mem_cons_self d t0))
  have hwne : w.isEmpty = false := by
    cases w with
    | nil => exact absurd rfl hw
    | cons a b => rfl
  have htne : tok.isEmpty = false := by
    cases tok with
    | nil => exact absurd rfl ht
    | cons a b => rfl
  rw [List.append_assoc, hm]
  dsimp only
  simp [htw, hwne, htne, List.drop_left, takeWhile_all tok htall]

/-- `replace("Block block", "Block ")` keeps the `Block ` prefix. -/
theorem replBB_block (t : List Char) :
    ∃ u, replBB (("Block ").data ++ t) = ("Block ").data ++ u := by
  have hlen : ((("Block ").data ++ t)).length = t.length + 6 := by
    simp [List.length_append]
  unfold replBB
  rw [hlen]
  show ∃ u, (match matchLit (("Block block").data)
      ('B' :: 'l' :: 'o' :: 'c' :: 'k' :: ' ' :: t) with
    | some rest => ("Block ").data ++ replBBFuel (t.length + 5) rest
    | none =>
      'B' :: replBBFuel (t.length + 5) ('l' :: 'o' :: 'c' :: 'k' :: ' ' :: t))
    = ("Block ").data ++ u
  rcases hm : matchLit (("Block block").data)
      ('B' :: 'l' :: 'o' :: 'c' :: 'k' :: ' ' :: t) with _ | rest
  · exact ⟨replBBFuel t.length t, rfl⟩
  · exact ⟨replBBFuel (t.length + 5) rest, rfl⟩

/-- `str.title()` keeps the `Block ` prefix. -/
theorem pyTitle_block (u : List Char) :
    pyTitle (("Block ").data ++ u) = ("Block ").data ++ pyTitleAux false u := rfl

/-- C9: the extracted entity is always a non-empty string beginning with
`Block`, and when neither the `block <token>` pattern nor the
`for <letter>` pattern matches, it is exactly `Block A`. -/
theorem C9_block_entity (q : List Char) :
    extract_block q ≠ []
    ∧ (("Block").data.isPrefixOf (extract_block q)) = true
    ∧ (searchBlock q = none → searchFor q = none →
        extract_block q = ("Block A").data) := by
  rcases hsb : searchBlock q with _ | m
  · rcases hsf : searchFor q with _ | c
    · have hres : extract_block q = ("Block A").data := by
        unfold extract_block
        rw [hsb, hsf]
      rw [hres]
      exact ⟨by simp, rfl, fun _ _ => rfl⟩
    · have hres : extract_block q = ("Block ").data ++ [c.toUpper] := by
        unfold extract_block
        rw [hsb, hsf]
      rw [hres]
      refine ⟨by simp, rfl, ?_⟩
      intro _ h2
      exact absurd h2 (by simp)
  · obtain ⟨pre, w, tok, hm, hlow, hwne, hwall, htne, htall⟩ :=
      searchBlock_shape q m hsb
    rcases pre with _ | ⟨p0, pre1⟩
    · simp [lowerStr] at hlow
    have hp0 : p0.toLower = 'b' := by
      simp only [lowerStr, List.map_cons] at hlow
      have := congrArg (fun l => l.headD ' ') hlow
      simpa using this
    have hp0ws : isPySpace p0 = false := not_ws_of_toLower hp0 (by decide)
    rcases (List.eq_nil_or_concat tok).resolve_left htne with ⟨tok0, tl, htok⟩
    have htl : isTokChar tl = true := by
      refine htall tl ?_
      rw [htok]
      simp
    have htlws : isPySpace tl = false := tok_not_ws htl
    have hm2 : m = (p0 :: (pre1 ++ w ++ tok0)) ++ [tl] := by
      rw [hm, htok]
      simp
    have hstrip : pyStrip m = m := by
      rw [hm2]
      rw [List.cons_append]
      exact pyStrip_keep hp0ws htlws
    have hrs : rstripNonWord m = m := by
      rw [hm2]
      exact rstripNonWord_keep (tok_keeps htl)
    have hmb : matchBlockParts m = some (w, tok) := by
      rw [hm]
      exact matchBlockParts_recover hlow hwne hwall htne htall
    have hres : extract_block q
        = (if tok.length = 1 then ("Block ").data ++ tok.map Char.toUpper
           else pyTitle (replBB (("Block ").data ++ tok))) := by
      unfold extract_block
      rw [hsb]
      dsimp only
      rw [hstrip, hrs, hmb]
    rw [hres]
    by_cases hlen1 : tok.length = 1
    · rw [if_pos hlen1]
      refine ⟨by simp, rfl, ?_⟩
      intro h1 _
      exact absurd h1 (by simp)
    · rw [if_neg hlen1]
      obtain ⟨u, hu⟩ := replBB_block tok
      rw [hu, pyTitle_block]
      refine ⟨by simp, rfl, ?_⟩
      intro h1 _
      exact absurd h1 (by simp)

/-- Witness for C9: a query matching neither pattern falls back to
`Block A`. -/
theorem C9_block_entity_witness :
    searchBlock (("hello").data) = none
    ∧ extract_block (("hello").data) = ("Block A").data :=
  ⟨rfl, (C9_block_entity (("hello").data)).2.2 rfl rfl⟩

/-- A failing character is unchanged by `dropWhile` (variant of
`dropWhile_cons_false` for a true head). -/
theorem dropWhile_cons_true {p : Char → Bool} {c : Char} {t : List Char}
    (h : p c = true) : List.dropWhile p (c :: t) = List.dropWhile p t := by
  simp [List.dropWhile, h]

/-- `dropWhile` never lengthens a list. -/
theorem dropWhile_le {p : Char → Bool} : ∀ l : List Char,
    (l.dropWhile p).length ≤ l.length := by
  intro l
  induction l with
  | nil => simp
  | cons a t ih =>
    cases hp : p a
    · rw [dropWhile_cons_false hp]
    · rw [dropWhile_cons_true hp]
      exact Nat.le_succ_of_le ih

/-- The head surviving `dropWhile` fails the predicate. -/
theorem dropWhile_head_false {p : Char → Bool} :
    ∀ {l c t}, List.dropWhile p l = c :: t → p c = false := by
  intro l
  induction l with
  | nil => intro c t h; simp at h
  | cons a l ih =>
    intro c t h
    cases hp : p a
    · rw [dropWhile_cons_false hp] at h
      injection h with h1 _
      subst h1
      exact hp
    · rw [dropWhile_cons_true hp] at h
      exact ih h

/-- An empty `dropWhile` means every element satisfied the predicate. -/
theorem dropWhile_nil_all {p : Char → Bool} :
    ∀ {l}, List.dropWhile p l = [] → ∀ c ∈ l, p c = true := by
  intro l
  induction l with
  | nil => intro _ _ hc; simp at hc
  | cons a l ih =>
    intro h c hc
    cases hp : p a
    · rw [dropWhile_cons_false hp] at h
      exact absurd h (by simp)
    · rw [dropWhile_cons_true hp] at h
      rcases List.mem_cons.mp hc with rfl | hc2
      · exact hp
      · exact ih h c hc2

/-- `dropWhile` over an append whose left part leaves a remainder. -/
theorem dropWhile_append_pos {p : Char → Bool} :
    ∀ (x y : List Char) {c t}, List.dropWhile p x = c :: t →
      List.dropWhile p (x ++ y) = c :: (t ++ y) := by
  intro x
  induction x with
  | nil => intro y c t h; simp at h
  | cons a x ih =>
    intro y c t h
    cases hp : p a
    · rw [dropWhile_cons_false hp] at h
      injection h with h1 h2
      subst h1; subst h2
      rw [List.cons_append, dropWhile_cons_false hp]
    · rw [dropWhile_cons_true hp] at h
      rw [List.cons_append, dropWhile_cons_true hp]
      exact ih y h

/-- `dropWhile` over an append with an all-satisfying left part. -/
theorem dropWhile_append_all {p : Char → Bool} :
    ∀ (W s : List Char), (∀ c ∈ W, p c = true) →
      List.dropWhile p (W ++ s) = List.dropWhile p s := by
  intro W
  induction W with
  | nil => intro s _; rfl
  | cons a W ih =>
    intro s h
    rw [List.cons_append, dropWhile_cons_true (h a (List.mem_cons_self a W))]
    exact ih s (fun c hc => h c (List.mem_cons_of_mem _ hc))

/-- `dropWhile` of an all-satisfying list is empty. -/
theorem dropWhile_all_nil {p : Char → Bool} : ∀ (l : List Char),
    (∀ c ∈ l, p c = true) → List.dropWhile p l = [] := by
  intro l
  induction l with
  | nil => intro _; rfl
  | cons a l ih =>
    intro h
    rw [dropWhile_cons_true (h a (List.mem_cons_self a l))]
    exact ih (fun c hc => h c (List.mem_cons_of_mem _ hc))

/-- `takeWhile` over an append with an all-satisfying left part. -/
theorem takeWhile_append_all {p : Char → Bool} :
    ∀ (A B : List Char), (∀ c ∈ A, p c = true) →
      List.takeWhile p (A ++ B) = A ++ List.takeWhile p B := by
  intro A
  induction A with
  | nil => intro B _; rfl
  | cons a A ih =>
    intro B h
    rw [List.cons_append, List.takeWhile_cons, h a (List.mem_cons_self a A)]
    simp [ih B (fun c hc => h c (List.mem_cons_of_mem _ hc))]

/-- A character failing `notNl` is the newline. -/
theorem notNl_eq_false {c : Char} (h : notNl c = false) : c = '\n' := by
  simp [notNl] at h
  exact h

/-- A character other than the newline satisfies `notNl`. -/
theorem notNl_eq_true {c : Char} (h : c ≠ '\n') : notNl c = true := by
  simp [notNl, h]

/-- Boolean prefix test as an existential. -/
theorem isPref_iff {a b : List Char} : a.isPrefixOf b = true ↔ ∃ t, a ++ t = b := by
  rw [ List.isPrefixOf_iff_prefix]
  exact Iff.rfl

/-- A list is a prefix of itself extended. -/
theorem isPref_self_append (a t : List Char) : a.isPrefixOf (a ++ t) = true :=
  isPref_iff.mpr ⟨t, rfl⟩

/-- Prefix is reflexive. -/
theorem isPref_refl (a : List Char) : a.isPrefixOf a = true :=
  isPref_iff.mpr ⟨[], List.append_nil a⟩

/-- `splitNl` on a leading newline. -/
theorem splitNl_cons_nl (t : List Char) : splitNl ('\n' :: t) = [] :: splitNl t := by
  rw [splitNl, if_pos rfl]

/-- `nlTail` on a leading newline. -/
theorem nlTail_nl (x : List Char) : nlTail ('\n' :: x) = splitNl x := by
  unfold nlTail
  rw [dropWhile_cons_false (by decide : notNl '\n' = false)]

/-- `nlTail` skips a non-newline head. -/
theorem nlTail_cons_ne {c : Char} (hc : c ≠ '\n') (x : List Char) :
    nlTail (c :: x) = nlTail x := by
  unfold nlTail
  rw [dropWhile_cons_true (notNl_eq_true hc)]

/-- Head/tail structure of `splitNl`: the first line is the maximal
newline-free prefix, the rest is `nlTail`. -/
theorem splitNl_structure : ∀ X : List Char, splitNl X = X.takeWhile notNl :: nlTail X := by
  intro X
  induction X with
  | nil => rfl
  | cons c t ih =>
    by_cases hc : c = '\n'
    · subst hc
      rw [splitNl_cons_nl, nlTail_nl, List.takeWhile_cons,
        (by decide : notNl '\n' = false)]
      simp
    · rw [splitNl, if_neg hc, ih]
      dsimp only
      rw [List.takeWhile_cons, notNl_eq_true hc, nlTail_cons_ne hc]
      simp

/-- `splitNl` never returns the empty list of segments. -/
theorem splitNl_ne_nil (X : List Char) : splitNl X ≠ [] := by
  rw [splitNl_structure]
  simp

/-- The first line is a segment. -/
theorem mem_head_splitNl (X : List Char) : X.takeWhile notNl ∈ splitNl X := by
  rw [splitNl_structure]
  exact List.mem_cons_self _ _

/-- Later lines are segments. -/
theorem mem_tail_splitNl {seg : List Char} {X : List Char} (h : seg ∈ nlTail X) :
    seg ∈ splitNl X := by
  rw [splitNl_structure]
  exact List.mem_cons_of_mem _ h

/-- A newline-free text is a single line. -/
theorem splitNl_nlfree {A : List Char} (h : ∀ c ∈ A, notNl c = true) :
    splitNl A = [A] := by
  rw [splitNl_structure, takeWhile_all A h]
  unfold nlTail
  rw [dropWhile_all_nil A h]

/-- Splitting after a complete newline-free line. -/
theorem splitNl_append_nl {A X : List Char} (h : ∀ c ∈ A, notNl c = true) :
    splitNl (A ++ '\n' :: X) = A :: splitNl X := by
  rw [splitNl_structure]
  rw [takeWhile_all_append A ('\n' :: X) h
    (by intro c0 h0; injection h0 with h0; subst h0; decide)]
  unfold nlTail
  rw [dropWhile_append_all A ('\n' :: X) h,
    dropWhile_cons_false (by decide : notNl '\n' = false)]

/-- Decompose a text at its first newline. -/
theorem nl_decomp (P : List Char) :
    (∀ c ∈ P, notNl c = true) ∨
      ∃ P1 P2, P = P1 ++ '\n' :: P2 ∧ (∀ c ∈ P1, notNl c = true)
        ∧ P2.length < P.length := by
  cases hd : List.dropWhile notNl P with
  | nil => exact Or.inl (dropWhile_nil_all hd)
  | cons d u =>
    have hdnl : d = '\n' := notNl_eq_false (dropWhile_head_false hd)
    subst hdnl
    refine Or.inr ⟨P.takeWhile notNl, u, ?_, ?_, ?_⟩
    · rw [← hd]
      exact (List.takeWhile_append_dropWhile notNl P).symm
    · intro c hc
      exact List.mem_takeWhile_imp hc
    · have h1 : (P.takeWhile notNl).length + ('\n' :: u).length = P.length := by
        rw [← List.length_append, ← hd, List.takeWhile_append_dropWhile]
      simp at h1
      omega

/-- Any segment of `splitNl X` stays a segment after prepending a terminated
prefix. -/
theorem mem_splitNl_right : ∀ (N : Nat) (P X seg : List Char), P.length ≤ N →
    seg ∈ splitNl X → seg ∈ splitNl (P ++ '\n' :: X) := by
  intro N
  induction N with
  | zero =>
    intro P X seg hP h
    have hP0 : P = [] := List.length_eq_zero.mp (Nat.le_zero.mp hP)
    subst hP0
    rw [List.nil_append, splitNl_cons_nl]
    exact List.mem_cons_of_mem _ h
  | succ N ih =>
    intro P X seg hP h
    rcases nl_decomp P with hfree | ⟨P1, P2, rfl, h1, hlt⟩
    · rw [splitNl_append_nl hfree]
      exact List.mem_cons_of_mem _ h
    · have heq : (P1 ++ '\n' :: P2) ++ '\n' :: X = P1 ++ '\n' :: (P2 ++ '\n' :: X) := by
        simp
      rw [heq, splitNl_append_nl h1]
      refine List.mem_cons_of_mem _ ?_
      exact ih P2 X seg (by omega) h

/-- A full line between a terminated prefix and a line-terminated suffix is a
segment. -/
theorem mem_lines_mid {P seg S : List Char}
    (hP : P = [] ∨ ∃ Pp, P = Pp ++ ['\n'])
    (hseg : ∀ c ∈ seg, notNl c = true)
    (hS : S = [] ∨ ∃ Sp, S = '\n' :: Sp) :
    seg ∈ splitNl (P ++ seg ++ S) := by
  have hcore : seg ∈ splitNl (seg ++ S) := by
    rcases hS with rfl | ⟨Sp, rfl⟩
    · rw [List.append_nil, splitNl_nlfree hseg]
      simp
    · rw [splitNl_append_nl hseg]
      exact List.mem_cons_self _ _
  rcases hP with rfl | ⟨Pp, rfl⟩
  · rw [List.nil_append]
    exact hcore
  · have heq : ((Pp ++ ['\n']) ++ seg) ++ S = Pp ++ '\n' :: (seg ++ S) := by simp
    rw [heq]
    exact mem_splitNl_right Pp.length Pp (seg ++ S) seg le_rfl hcore

/-- Segments of a prefix of a text are prefixes of its segments. -/
theorem mem_lines_take : ∀ (N : Nat) (t e seg : List Char), t.length ≤ N →
    seg ∈ splitNl t → ∃ L, L ∈ splitNl (t ++ e) ∧ seg.isPrefixOf L = true := by
  intro N
  induction N with
  | zero =>
    intro t e seg ht h
    have ht0 : t = [] := List.length_eq_zero.mp (Nat.le_zero.mp ht)
    subst ht0
    have hseg : seg = [] := by simpa [splitNl] using h
    subst hseg
    exact ⟨(([] : List Char) ++ e).takeWhile notNl, mem_head_splitNl _,
      by simp [List.isPrefixOf]⟩
  | succ N ih =>
    intro t e seg ht h
    rcases nl_decomp t with hfree | ⟨P1, P2, rfl, h1, hlt⟩
    · rw [splitNl_nlfree hfree] at h
      have hseg : seg = t := by simpa using h
      subst hseg
      refine ⟨(seg ++ e).takeWhile notNl, mem_head_splitNl _, ?_⟩
      rw [takeWhile_append_all seg _ hfree]
      exact isPref_self_append _ _
    · rw [splitNl_append_nl h1] at h
      have heq : (P1 ++ '\n' :: P2) ++ e = P1 ++ '\n' :: (P2 ++ e) := by simp
      rcases List.mem_cons.mp h with rfl | h2
      · rw [heq, splitNl_append_nl h1]
        exact ⟨seg, List.mem_cons_self _ _, isPref_refl seg⟩
      · obtain ⟨L, hL, hpre⟩ := ih P2 e seg (by omega) h2
        rw [heq, splitNl_append_nl h1]
        exact ⟨L, List.mem_cons_of_mem _ hL, hpre⟩

/-- Segments after stripping leading whitespace: each is a segment of the
original text, possibly with an all-whitespace lead restored. -/
theorem mem_lines_lstrip : ∀ (s seg : List Char),
    seg ∈ splitNl (s.dropWhile isPySpace) →
      seg ∈ splitNl s ∨ ∃ W, (∀ c ∈ W, isPySpace c = true) ∧ W ++ seg ∈ splitNl s := by
  intro s
  induction s with
  | nil =>
    intro seg h
    exact Or.inl h
  | cons a t ih =>
    intro seg h
    cases hw : isPySpace a with
    | false =>
      rw [dropWhile_cons_false hw] at h
      exact Or.inl h
    | true =>
      rw [dropWhile_cons_true hw] at h
      by_cases ha : a = '\n'
      · subst ha
        rw [splitNl_cons_nl]
        rcases ih seg h with h1 | ⟨W, hW, h2⟩
        · exact Or.inl (List.mem_cons_of_mem _ h1)
        · exact Or.inr ⟨W, hW, List.mem_cons_of_mem _ h2⟩
      · rcases ih seg h with h1 | ⟨W, hW, h2⟩
        · rw [splitNl_structure] at h1
          rcases List.mem_cons.mp h1 with rfl | h3
          · refine Or.inr ⟨[a], ?_, ?_⟩
            · intro c hc
              simp at hc
              subst hc
              exact hw
            · rw [List.singleton_append, splitNl_structure, List.takeWhile_cons,
                notNl_eq_true ha, nlTail_cons_ne ha]
              simp
          · refine Or.inl (mem_tail_splitNl ?_)
            rw [nlTail_cons_ne ha]
            exact h3
        · rw [splitNl_structure] at h2
          rcases List.mem_cons.mp h2 with heq | h3
          · refine Or.inr ⟨a :: W, ?_, ?_⟩
            · intro c hc
              rcases List.mem_cons.mp hc with rfl | hc2
              · exact hw
              · exact hW c hc2
            · rw [List.cons_append, splitNl_structure, List.takeWhile_cons,
                notNl_eq_true ha, nlTail_cons_ne ha]
              simp [heq]
          · refine Or.inr ⟨W, hW, mem_tail_splitNl ?_⟩
            rw [nlTail_cons_ne ha]
            exact h3

/-- The empty line is clean. -/
theorem lineClean_nil : lineClean [] := by
  unfold lineClean
  decide

/-- Cons form of the source prefix. -/
theorem srcPat_eq {r : List Char} : srcPat ++ r = 'S' :: (("ource: ").data ++ r) := rfl

/-- Cleanliness survives removal of an all-whitespace lead. -/
theorem lineClean_ws {W seg : List Char} (hW : ∀ c ∈ W, isPySpace c = true)
    (h : lineClean (W ++ seg)) : lineClean seg := by
  unfold lineClean at h ⊢
  rwa [dropWhile_append_all W seg hW] at h

/-- Cleanliness restricts to prefixes of a line. -/
theorem lineClean_pref {s1 s2 : List Char} (hp : s1.isPrefixOf s2 = true)
    (h : lineClean s2) : lineClean s1 := by
  unfold lineClean at h ⊢
  cases hq : srcPat.isPrefixOf (s1.dropWhile isPySpace) with
  | false => rfl
  | true =>
    exfalso
    obtain ⟨r, hr⟩ := isPref_iff.mp hq
    obtain ⟨e, he⟩ := isPref_iff.mp hp
    have hcons : List.dropWhile isPySpace s1 = 'S' :: (("ource: ").data ++ r) := by
      rw [← hr]
      exact srcPat_eq
    have h2 : List.dropWhile isPySpace (s1 ++ e)
        = 'S' :: ((("ource: ").data ++ r) ++ e) :=
      dropWhile_append_pos s1 e hcons
    rw [he] at h2
    rw [h2] at h
    have h3 : srcPat.isPrefixOf ('S' :: ((("ource: ").data ++ r) ++ e)) = true := by
      have h4 : srcPat ++ (r ++ e) = 'S' :: ((("ource: ").data ++ r) ++ e) := by
        rw [srcPat_eq]
        simp
      rw [← h4]
      exact isPref_self_append _ _
    rw [h3] at h
    exact absurd h (by simp)

/-- A clean line does not begin with the bare source prefix. -/
theorem lineClean_plain {seg : List Char} (h : lineClean seg) :
    srcPat.isPrefixOf seg = false := by
  cases hq : srcPat.isPrefixOf seg with
  | false => rfl
  | true =>
    exfalso
    obtain ⟨r, hr⟩ := isPref_iff.mp hq
    unfold lineClean at h
    have hseg : seg = 'S' :: (("ource: ").data ++ r) := by
      rw [← hr]
      exact srcPat_eq
    rw [hseg, dropWhile_cons_false (by decide : isPySpace 'S' = false)] at h
    have h3 : srcPat.isPrefixOf ('S' :: (("ource: ").data ++ r)) = true := by
      rw [← srcPat_eq]
      exact isPref_self_append _ _
    rw [h3] at h
    exact absurd h (by simp)

/-- Length accounting of a case-insensitive literal match. -/
theorem matchLitCI_len {p s r : List Char} (h : matchLitCI p s = some r) :
    s.length = p.length + r.length := by
  obtain ⟨pre, rfl, hlow⟩ := matchLitCI_some p s r h
  have hl : pre.length = p.length := by
    have h2 := congrArg List.length hlow
    simpa [lowerStr] using h2
  simp [hl]

/-- A name-colon match consumes at least the name and the colon. -/
theorem matchNameColon_lt {name s t : List Char} (hname : name ≠ [])
    (h : matchNameColon name s = some t) : t.length < s.length := by
  unfold matchNameColon at h
  cases hm : matchLitCI name s with
  | none =>
    rw [hm] at h
    exact absurd h (by simp)
  | some r =>
    rw [hm] at h
    dsimp only at h
    cases hd : r.dropWhile isPySpace with
    | nil =>
      rw [hd] at h
      simp at h
    | cons c u =>
      rw [hd] at h
      have hlen := matchLitCI_len hm
      have hdu : u.length + 1 ≤ r.length := by
        have h2 := dropWhile_le (p := isPySpace) r
        rw [hd] at h2
        simpa using h2
      have hname1 : 1 ≤ name.length := by
        cases name with
        | nil => exact absurd rfl hname
        | cons a b => simp
      split at h
      · rename_i t0 heq
        injection heq with hc hu
        injection h with h1
        subst h1
        subst hu
        omega
      · exact absurd h (by simp)

/-- `stripBullet` either strips leading whitespace only, or additionally a
bullet with its whitespace. -/
theorem stripBullet_cases (s : List Char) :
    stripBullet s = s.dropWhile isPySpace ∨
      ∃ c t, s.dropWhile isPySpace = c :: t ∧ stripBullet s = t.dropWhile isPySpace := by
  unfold stripBullet
  cases hd : s.dropWhile isPySpace with
  | nil => exact Or.inl rfl
  | cons c t =>
    dsimp only
    split
    · exact Or.inr ⟨c, t, rfl, rfl⟩
    · exact Or.inl rfl

/-- `stripBullet` never lengthens its input. -/
theorem stripBullet_le (s : List Char) : (stripBullet s).length ≤ s.length := by
  rcases stripBullet_cases s with h | ⟨c, t, hd, h⟩
  · rw [h]
    exact dropWhile_le s
  · rw [h]
    have h1 : (c :: t).length ≤ s.length := by
      have h2 := dropWhile_le (p := isPySpace) s
      rw [hd] at h2
      exact h2
    have h3 := dropWhile_le (p := isPySpace) t
    simp at h1
    omega

/-- The matched tail is no longer than its input. -/
theorem srcTail_le (t : List Char) : (srcTail t).1.length ≤ t.length := by
  have hab : ((t.dropWhile isPySpace).dropWhile (fun c => !(c = '\n'))).length ≤ t.length :=
    le_trans (dropWhile_le _) (dropWhile_le _)
  simp only [srcTail]
  cases hb : (t.dropWhile isPySpace).dropWhile (fun c => !(c = '\n')) with
  | nil =>
    simp
  | cons c rest =>
    rw [hb] at hab
    have hc : c = '\n' := by
      have h2 := dropWhile_head_false hb
      simp at h2
      exact h2
    subst hc
    split
    · rename_i rest1 heq
      injection heq with heq1 heq2
      subst heq2
      cases rest with
      | nil => simp
      | cons d rest2 =>
        dsimp only
        by_cases hd : isPySpace d = true
        · rw [if_pos hd]
          simp at hab ⊢
          omega
        · rw [if_neg hd]
          simp at hab ⊢
          omega
    · rename_i x hx
      exact (hx rest rfl).elim

/-- When the matcher does not consume the final newline, the rest of the
input is empty or starts at that newline. -/
theorem srcTail_false {t r : List Char} (h : srcTail t = (r, false)) :
    r = [] ∨ ∃ u, r = '\n' :: u := by
  simp only [srcTail] at h
  cases hb : (t.dropWhile isPySpace).dropWhile (fun c => !(c = '\n')) with
  | nil =>
    rw [hb] at h
    injection h with h1 h2
    exact Or.inl h1.symm
  | cons c rest =>
    have hc : c = '\n' := by
      have h2 := dropWhile_head_false hb
      simp at h2
      exact h2
    subst hc
    rw [hb] at h
    split at h
    · rename_i rest1 heq
      injection heq with heq1 heq2
      subst heq2
      cases rest with
      | nil =>
        injection h with h1 h2
        exact absurd h2 (by simp)
      | cons d rest2 =>
        dsimp only at h
        by_cases hd : isPySpace d = true
        · rw [if_pos hd] at h
          injection h with h1 h2
          exact absurd h2 (by simp)
        · rw [if_neg hd] at h
          injection h with h1 h2
          exact Or.inr ⟨d :: rest2, h1.symm⟩
    · rename_i x hx
      exact (hx rest rfl).elim

/-- A source-line match consumes at least one character. -/
theorem msl_lt {s : List Char} {pr : List Char × Bool}
    (h : matchSourceLine s = some pr) : pr.1.length < s.length := by
  simp only [matchSourceLine] at h
  cases hm : matchNameColon (("source").data) (stripBullet s) with
  | some t =>
    rw [hm] at h
    dsimp only at h
    injection h with h1
    subst h1
    have h2 := srcTail_le t
    have h3 := matchNameColon_lt (by decide) hm
    have h4 := stripBullet_le s
    omega
  | none =>
    rw [hm] at h
    dsimp only at h
    cases hm2 : matchNameColon (("sources").data) (stripBullet s) with
    | some t =>
      rw [hm2] at h
      dsimp only at h
      injection h with h1
      subst h1
      have h2 := srcTail_le t
      have h3 := matchNameColon_lt (by decide) hm2
      have h4 := stripBullet_le s
      omega
    | none =>
      rw [hm2] at h
      simp at h

/-- A paused source-line match leaves an empty rest or one starting at a
newline. -/
theorem msl_false {s r : List Char} (h : matchSourceLine s = some (r, false)) :
    r = [] ∨ ∃ u, r = '\n' :: u := by
  simp only [matchSourceLine] at h
  cases hm : matchNameColon (("source").data) (stripBullet s) with
  | some t =>
    rw [hm] at h
    dsimp only at h
    injection h with h1
    exact srcTail_false h1
  | none =>
    rw [hm] at h
    dsimp only at h
    cases hm2 : matchNameColon (("sources").data) (stripBullet s) with
    | some t =>
      rw [hm2] at h
      dsimp only at h
      injection h with h1
      exact srcTail_false h1
    | none =>
      rw [hm2] at h
      simp at h

/-- The matcher succeeds on any input beginning, after whitespace, with the
bare source prefix. -/
theorem msl_src {s : List Char} (h : srcPat.isPrefixOf (s.dropWhile isPySpace) = true) :
    matchSourceLine s ≠ none := by
  obtain ⟨r, hr⟩ := isPref_iff.mp h
  have hsb : stripBullet s = ("Source").data ++ (':' :: ' ' :: r) := by
    simp only [stripBullet]
    rw [← hr, srcPat_eq]
    dsimp only
    rw [if_neg (by decide)]
    rfl
  have hml : matchLitCI (("source").data) (stripBullet s) = some (':' :: ' ' :: r) := by
    rw [hsb]
    exact matchLitCI_of_lower (("source").data) (("Source").data) (':' :: ' ' :: r) (by decide)
  have hmn : matchNameColon (("source").data) (stripBullet s) = some (' ' :: r) := by
    unfold matchNameColon
    rw [hml]
    dsimp only
    rw [dropWhile_cons_false (by decide : isPySpace ':' = false)]
    rfl
  simp only [matchSourceLine]
  rw [hmn]
  dsimp only
  simp

/-- `subLinesFuel` for the source matcher is fuel-insensitive once the fuel
covers the input length. -/
theorem subLF_congr : ∀ (n m : Nat) (b : Bool) (s : List Char), s.length ≤ n →
    s.length ≤ m → subLinesFuel matchSourceLine n b s = subLinesFuel matchSourceLine m b s := by
  intro n
  induction n with
  | zero =>
    intro m b s hn hm
    have hs : s = [] := List.length_eq_zero.mp (Nat.le_zero.mp hn)
    subst hs
    cases m with
    | zero => rfl
    | succ m2 => rfl
  | succ n ih =>
    intro m b s hn hm
    cases s with
    | nil =>
      cases m with
      | zero => rfl
      | succ m2 => rfl
    | cons c t =>
      cases m with
      | zero => simp at hm
      | succ m2 =>
        simp at hn hm
        cases b with
        | false =>
          dsimp only [subLinesFuel]
          exact congrArg (c :: ·) (ih m2 _ t (by omega) (by omega))
        | true =>
          dsimp only [subLinesFuel]
          cases hm3 : matchSourceLine (c :: t) with
          | none =>
            dsimp only
            exact congrArg (c :: ·) (ih m2 _ t (by omega) (by omega))
          | some pr =>
            obtain ⟨r, b2⟩ := pr
            have hlt := msl_lt hm3
            simp at hlt
            dsimp only
            exact ih m2 b2 r (by omega) (by omega)

/-- A paused scan copies the current line verbatim and resumes at the next
line start. -/
theorem subLF_false : ∀ (s : List Char) (n : Nat), s.length ≤ n →
    subLinesFuel matchSourceLine n false s = s.takeWhile notNl ++ slTail s := by
  intro s
  induction s with
  | nil =>
    intro n hn
    cases n with
    | zero => rfl
    | succ n2 => rfl
  | cons c t ih =>
    intro n hn
    cases n with
    | zero => simp at hn
    | succ n2 =>
      simp at hn
      dsimp only [subLinesFuel]
      by_cases hc : c = '\n'
      · subst hc
        have hflag : (decide ('\n' = '\n')) = true := by decide
        rw [hflag]
        rw [subLF_congr n2 t.length true t (by omega) le_rfl]
        rw [List.takeWhile_cons, (by decide : notNl '\n' = false)]
        unfold slTail
        rw [dropWhile_cons_false (by decide : notNl '\n' = false)]
        simp
      · have hflag : (decide (c = '\n')) = false := by simp [hc]
        rw [hflag]
        rw [ih n2 (by omega)]
        rw [List.takeWhile_cons, notNl_eq_true hc]
        unfold slTail
        rw [dropWhile_cons_true (notNl_eq_true hc)]
        simp

/-- A paused scan of an empty input produces nothing. -/
theorem subLF_false_nil (n : Nat) : subLinesFuel matchSourceLine n false [] = [] := by
  cases n with
  | zero => rfl
  | succ n2 => rfl

/-- A paused scan at a newline copies it and resumes. -/
theorem subLF_false_nl {u : List Char} {n : Nat} (hn : u.length + 1 ≤ n) :
    subLinesFuel matchSourceLine n false ('\n' :: u)
      = '\n' :: subLinesFuel matchSourceLine u.length true u := by
  rw [subLF_false ('\n' :: u) n (by simp; omega)]
  rw [List.takeWhile_cons, (by decide : notNl '\n' = false)]
  unfold slTail
  rw [dropWhile_cons_false (by decide : notNl '\n' = false)]
  simp

/-- Every line the source-line scanner outputs is clean. -/
theorem scanner_lines : ∀ (N : Nat) (s : List Char), s.length ≤ N →
    ∀ seg ∈ splitNl (subLinesFuel matchSourceLine s.length true s), lineClean seg := by
  intro N
  induction N with
  | zero =>
    intro s hs seg hseg
    have hs0 : s = [] := List.length_eq_zero.mp (Nat.le_zero.mp hs)
    subst hs0
    rw [show subLinesFuel matchSourceLine ([] : List Char).length true [] = [] from rfl] at hseg
    rw [show splitNl ([] : List Char) = [[]] from rfl] at hseg
    have h1 := List.mem_singleton.mp hseg
    subst h1
    exact lineClean_nil
  | succ N ih =>
    intro s hs seg hseg
    cases s with
    | nil =>
      rw [show subLinesFuel matchSourceLine ([] : List Char).length true [] = [] from rfl] at hseg
      rw [show splitNl ([] : List Char) = [[]] from rfl] at hseg
      have h1 := List.mem_singleton.mp hseg
      subst h1
      exact lineClean_nil
    | cons c t =>
      simp only [List.length_cons] at hs
      dsimp only [List.length_cons, subLinesFuel] at hseg
      rw [if_pos rfl] at hseg
      cases hm3 : matchSourceLine (c :: t) with
      | some pr =>
        obtain ⟨r, b2⟩ := pr
        rw [hm3] at hseg
        dsimp only at hseg
        have hlt := msl_lt hm3
        simp at hlt
        cases b2 with
        | true =>
          rw [subLF_congr t.length r.length true r (by omega) le_rfl] at hseg
          exact ih r (by omega) seg hseg
        | false =>
          rcases msl_false hm3 with rfl | ⟨u, rfl⟩
          · rw [subLF_false_nil t.length] at hseg
            rw [show splitNl ([] : List Char) = [[]] from rfl] at hseg
            have h1 := List.mem_singleton.mp hseg
            subst h1
            exact lineClean_nil
          · simp only [List.length_cons] at hlt
            rw [subLF_false_nl (by omega)] at hseg
            rw [splitNl_cons_nl] at hseg
            rcases List.mem_cons.mp hseg with rfl | h2
            · exact lineClean_nil
            · exact ih u (by omega) seg h2
      | none =>
        rw [hm3] at hseg
        dsimp only at hseg
        by_cases hc : c = '\n'
        · subst hc
          rw [show (decide ('\n' = '\n')) = true from by decide] at hseg
          rw [subLF_congr t.length t.length true t le_rfl le_rfl] at hseg
          rw [splitNl_cons_nl] at hseg
          rcases List.mem_cons.mp hseg with rfl | h2
          · exact lineClean_nil
          · exact ih t (by omega) seg h2
        · rw [show (decide (c = '\n')) = false from by simp [hc]] at hseg
          rw [subLF_false t t.length le_rfl] at hseg
          cases hdt : t.dropWhile notNl with
          | nil =>
            have htw : t.takeWhile notNl = t := by
              have h2 := List.takeWhile_append_dropWhile notNl t
              rw [hdt] at h2
              simpa using h2
            have hfree : ∀ x ∈ t, notNl x = true := dropWhile_nil_all hdt
            have hsl : slTail t = [] := by
              unfold slTail
              rw [hdt]
            rw [htw, hsl, List.append_nil] at hseg
            have hfree2 : ∀ x ∈ c :: t, notNl x = true := by
              intro x hx
              rcases List.mem_cons.mp hx with rfl | hx2
              · exact notNl_eq_true hc
              · exact hfree x hx2
            rw [splitNl_nlfree hfree2] at hseg
            have hseg2 := List.mem_singleton.mp hseg
            subst hseg2
            unfold lineClean
            cases hq : srcPat.isPrefixOf ((c :: t).dropWhile isPySpace) with
            | false => rfl
            | true => exact absurd hm3 (msl_src hq)
          | cons d u =>
            have hd : d = '\n' := notNl_eq_false (dropWhile_head_false hdt)
            subst hd
            have hsl : slTail t = '\n' :: subLinesFuel matchSourceLine u.length true u := by
              unfold slTail
              rw [hdt]
            rw [hsl] at hseg
            rw [show c :: (t.takeWhile notNl ++ '\n' :: subLinesFuel matchSourceLine u.length true u)
                = (c :: t.takeWhile notNl) ++ '\n' :: subLinesFuel matchSourceLine u.length true u
              from rfl] at hseg
            have hfree : ∀ x ∈ c :: t.takeWhile notNl, notNl x = true := by
              intro x hx
              rcases List.mem_cons.mp hx with rfl | hx2
              · exact notNl_eq_true hc
              · exact List.mem_takeWhile_imp hx2
            rw [splitNl_append_nl hfree] at hseg
            rcases List.mem_cons.mp hseg with rfl | h2
            · unfold lineClean
              cases hq : srcPat.isPrefixOf ((c :: t.takeWhile notNl).dropWhile isPySpace) with
              | false => rfl
              | true =>
                exfalso
                obtain ⟨rr, hrr⟩ := isPref_iff.mp hq
                have hcons : List.dropWhile isPySpace (c :: t.takeWhile notNl)
                    = 'S' :: (("ource: ").data ++ rr) := by
                  rw [← hrr]
                  exact srcPat_eq
                have h4 : List.dropWhile isPySpace ((c :: t.takeWhile notNl) ++ t.dropWhile notNl)
                    = 'S' :: ((("ource: ").data ++ rr) ++ t.dropWhile notNl) :=
                  dropWhile_append_pos _ _ hcons
                have h5 : (c :: t.takeWhile notNl) ++ t.dropWhile notNl = c :: t := by
                  rw [List.cons_append, List.takeWhile_append_dropWhile]
                rw [h5] at h4
                have h6 : srcPat.isPrefixOf ((c :: t).dropWhile isPySpace) = true := by
                  rw [h4]
                  have h7 : srcPat ++ (rr ++ t.dropWhile notNl)
                      = 'S' :: ((("ource: ").data ++ rr) ++ t.dropWhile notNl) := by
                    rw [srcPat_eq]
                    simp
                  rw [← h7]
                  exact isPref_self_append _ _
                exact absurd hm3 (msl_src h6)
            · have hu : u.length ≤ N := by
                have h8 := dropWhile_le (p := notNl) t
                rw [hdt] at h8
                simp at h8
                omega
              exact ih u hu seg h2

/-- Every line of `subSourceLines` is clean. -/
theorem subSourceLines_lines {s seg : List Char} (h : seg ∈ splitNl (subSourceLines s)) :
    lineClean seg :=
  scanner_lines s.length s le_rfl seg h

/-- Newline collapsing preserves the first line. -/
theorem collapse_takeWhile : ∀ (n : Nat) (s : List Char),
    (collapseNlFuel n s).takeWhile notNl = s.takeWhile notNl := by
  intro n
  induction n with
  | zero => intro s; rfl
  | succ n ih =>
    intro s
    cases s with
    | nil => rfl
    | cons c t =>
      dsimp only [collapseNlFuel]
      split
      · rename_i u
        rw [ih]
        simp [List.takeWhile_cons, notNl]
      · by_cases hc : c = '\n'
        · subst hc
          simp [List.takeWhile_cons, notNl]
        · rw [List.takeWhile_cons, List.takeWhile_cons, notNl_eq_true hc]
          simp [ih t]

/-- Later lines of a collapsed text are later lines of the original, or
empty. -/
theorem collapse_mem_tail : ∀ (n : Nat) (s seg : List Char),
    seg ∈ nlTail (collapseNlFuel n s) → seg ∈ nlTail s ∨ seg = [] := by
  intro n
  induction n with
  | zero => intro s seg h; exact Or.inl h
  | succ n ih =>
    intro s seg h
    cases s with
    | nil => exact Or.inl h
    | cons c t =>
      dsimp only [collapseNlFuel] at h
      split at h
      · rename_i u
        rcases ih ('\n' :: '\n' :: u) seg h with h2 | h2
        · rw [nlTail_nl] at h2
          left
          rw [nlTail_nl, splitNl_cons_nl]
          exact List.mem_cons_of_mem _ h2
        · exact Or.inr h2
      · by_cases hc : c = '\n'
        · subst hc
          rw [nlTail_nl] at h
          rw [splitNl_structure, collapse_takeWhile n t] at h
          rcases List.mem_cons.mp h with rfl | h2
          · left
            rw [nlTail_nl]
            exact mem_head_splitNl t
          · rcases ih t seg h2 with h3 | h3
            · left
              rw [nlTail_nl]
              exact mem_tail_splitNl h3
            · exact Or.inr h3
        · rw [nlTail_cons_ne hc] at h
          rcases ih t seg h with h3 | h3
          · left
            rw [nlTail_cons_ne hc]
            exact h3
          · exact Or.inr h3

/-- Lines of a collapsed text are lines of the original, or empty. -/
theorem collapse_mem {s seg : List Char} (h : seg ∈ splitNl (collapseNl s)) :
    seg ∈ splitNl s ∨ seg = [] := by
  unfold collapseNl at h
  rw [splitNl_structure, collapse_takeWhile s.length s] at h
  rcases List.mem_cons.mp h with rfl | h2
  · exact Or.inl (mem_head_splitNl s)
  · rcases collapse_mem_tail s.length s seg h2 with h3 | h3
    · exact Or.inl (mem_tail_splitNl h3)
    · exact Or.inr h3

/-- `pyStrip` output extends to the left-stripped input by trailing
whitespace. -/
theorem pyStrip_decomp (x : List Char) : ∃ e, (∀ c ∈ e, isPySpace c = true)
    ∧ x.dropWhile isPySpace = pyStrip x ++ e := by
  refine ⟨((x.dropWhile isPySpace).reverse.takeWhile isPySpace).reverse, ?_, ?_⟩
  · intro c hc
    rw [List.mem_reverse] at hc
    exact List.mem_takeWhile_imp hc
  · unfold pyStrip
    rw [← List.reverse_append, List.takeWhile_append_dropWhile, List.reverse_reverse]

/-- Line cleanliness transfers through `pyStrip`. -/
theorem lines_pyStrip {x seg : List Char} (hx : ∀ sg ∈ splitNl x, lineClean sg)
    (h : seg ∈ splitNl (pyStrip x)) : lineClean seg := by
  obtain ⟨e, he, hdec⟩ := pyStrip_decomp x
  have hX : ∀ sg ∈ splitNl (x.dropWhile isPySpace), lineClean sg := by
    intro sg hsg
    rcases mem_lines_lstrip x sg hsg with h1 | ⟨W, hW, h2⟩
    · exact hx sg h1
    · exact lineClean_ws hW (hx _ h2)
  obtain ⟨L, hL, hpre⟩ := mem_lines_take (pyStrip x).length (pyStrip x) e seg le_rfl h
  rw [← hdec] at hL
  exact lineClean_pref hpre (hX L hL)

/-- Every line of the cleaned body is clean. -/
theorem cleanBody_lines {body seg : List Char} (h : seg ∈ splitNl (cleanBody body)) :
    lineClean seg := by
  unfold cleanBody at h
  refine lines_pyStrip ?_ h
  intro sg hsg
  rcases collapse_mem hsg with h2 | rfl
  · exact subSourceLines_lines h2
  · exact lineClean_nil

/-- Without a footer marker, every line of the sanitized output is clean. -/
theorem strip_no_marker {txt seg : List Char} (hm : findMarkerAux txt = none)
    (h : seg ∈ splitNl (strip_spurious_body_sources txt)) : lineClean seg := by
  unfold strip_spurious_body_sources at h
  rw [hm] at h
  simp only [List.isEmpty_nil, if_true, List.append_nil] at h
  exact lines_pyStrip (fun sg hsg => cleanBody_lines hsg) h

/-- Occurrence counts only grow when text is prepended. -/
theorem countSub_append_ge (q : List Char) : ∀ (x y : List Char),
    countSub q y ≤ countSub q (x ++ y) := by
  intro x
  induction x with
  | nil =>
    intro y
    rw [List.nil_append]
  | cons c x ih =>
    intro y
    rw [List.cons_append]
    have h1 : countSub q (c :: (x ++ y))
        = (if q.isPrefixOf (c :: (x ++ y)) = true then 1 else 0) + countSub q (x ++ y) := rfl
    rw [h1]
    have h2 := ih y
    have h3 : countSub q (x ++ y)
        ≤ (if q.isPrefixOf (c :: (x ++ y)) = true then 1 else 0) + countSub q (x ++ y) :=
      Nat.le_add_left _ _
    omega

/-- A nonempty prefix occurrence contributes to the count. -/
theorem countSub_pos {q s : List Char} (hq : q ≠ []) (h : q.isPrefixOf s = true) :
    1 ≤ countSub q s := by
  cases s with
  | nil =>
    cases q with
    | nil => exact absurd rfl hq
    | cons a b => simp [List.isPrefixOf] at h
  | cons c t =>
    have h1 : countSub q (c :: t)
        = (if q.isPrefixOf (c :: t) = true then 1 else 0) + countSub q t := rfl
    rw [h1, if_pos h]
    omega

/-- Two disjoint occurrence witnesses force a count of at least two. -/
theorem countSub_ge_two {q x y : List Char} (_hq : q ≠ []) (hx : x ≠ [])
    (h0 : q.isPrefixOf (x ++ y) = true) (h1 : 1 ≤ countSub q y) :
    2 ≤ countSub q (x ++ y) := by
  cases x with
  | nil => exact absurd rfl hx
  | cons c x2 =>
    rw [List.cons_append] at h0 ⊢
    have h2 : countSub q (c :: (x2 ++ y))
        = (if q.isPrefixOf (c :: (x2 ++ y)) = true then 1 else 0) + countSub q (x2 ++ y) := rfl
    rw [h2, if_pos h0]
    have h3 := countSub_append_ge q x2 y
    omega

/-- Lowercasing distributes over append. -/
theorem lowerStr_append (a b : List Char) : lowerStr (a ++ b) = lowerStr a ++ lowerStr b := by
  simp [lowerStr]

/-- The marker test of `findMarkerAux` is a case-insensitive prefix test. -/
theorem test_iff {s : List Char} :
    ((lowerStr (s.take 14) == lowerStr footerMarker) = true)
      ↔ (lowerStr footerMarker).isPrefixOf (lowerStr s) = true := by
  rw [beq_iff_eq]
  constructor
  · intro h
    rw [isPref_iff]
    refine ⟨lowerStr (s.drop 14), ?_⟩
    rw [← h, ← lowerStr_append, List.take_append_drop]
  · intro h
    obtain ⟨r, hr⟩ := isPref_iff.mp h
    have h2 : lowerStr (s.take 14) = (lowerStr s).take 14 := by
      simp [lowerStr, List.map_take]
    rw [h2, ← hr]
    rw [show (14 : Nat) = (lowerStr footerMarker).length from by decide]
    exact List.take_left _ _

/-- `findMarkerAux` splits at the marker when no earlier position tests
positive. -/
theorem fm_build : ∀ (A F : List Char),
    (∃ mr, lowerStr F = lowerStr footerMarker ++ mr) →
    (∀ A1 A2, A = A1 ++ A2 → A2 ≠ [] →
      (lowerStr ((A2 ++ F).take 14) == lowerStr footerMarker) = false) →
    findMarkerAux (A ++ F) = some (A, F) := by
  intro A
  induction A with
  | nil =>
    intro F hmr _
    obtain ⟨mr, hmr⟩ := hmr
    cases F with
    | nil =>
      exfalso
      have hl := congrArg List.length hmr
      simp [lowerStr] at hl
      have h14 : footerMarker.length = 14 := by decide
      omega
    | cons c t =>
      rw [List.nil_append, findMarkerAux,
        if_pos (test_iff.mpr (isPref_iff.mpr ⟨mr, hmr.symm⟩))]
  | cons a A ih =>
    intro F hmr hA
    rw [List.cons_append, findMarkerAux]
    have htest : (lowerStr (((a :: A) ++ F).take 14) == lowerStr footerMarker) = false :=
      hA [] (a :: A) rfl (by simp)
    rw [List.cons_append] at htest
    rw [if_neg (by rw [htest]; simp)]
    have hrec := ih F hmr (fun A1 A2 hsplit hne => hA (a :: A1) A2 (by rw [hsplit]; rfl) hne)
    rw [hrec]

/-- With a single case-insensitive marker occurrence, starting the line
`seg`, the footer split lands exactly there. -/
theorem fm_of_count {A seg B : List Char} (hpre : footerMarker.isPrefixOf seg = true)
    (hcount : ciMarkerCount ((A ++ seg) ++ B) = 1) :
    findMarkerAux (A ++ (seg ++ B)) = some (A, seg ++ B) := by
  obtain ⟨sr, hsr⟩ := isPref_iff.mp hpre
  have hFm : ∃ mr, lowerStr (seg ++ B) = lowerStr footerMarker ++ mr := by
    refine ⟨lowerStr (sr ++ B), ?_⟩
    rw [← hsr]
    simp [lowerStr_append]
  apply fm_build _ _ hFm
  intro A1 A2 hsplit hne
  cases htest : (lowerStr ((A2 ++ (seg ++ B)).take 14) == lowerStr footerMarker) with
  | false => rfl
  | true =>
    exfalso
    have hp : (lowerStr footerMarker).isPrefixOf (lowerStr (A2 ++ (seg ++ B))) = true :=
      test_iff.mp htest
    have hM : lowerStr footerMarker ≠ [] := by decide
    have hA2 : lowerStr A2 ≠ [] := by
      cases A2 with
      | nil => exact absurd rfl hne
      | cons a b => simp [lowerStr]
    have h1 : 1 ≤ countSub (lowerStr footerMarker) (lowerStr (seg ++ B)) := by
      apply countSub_pos hM
      obtain ⟨mr, hmr⟩ := hFm
      exact isPref_iff.mpr ⟨mr, hmr.symm⟩
    have h2 : 2 ≤ countSub (lowerStr footerMarker) (lowerStr A2 ++ lowerStr (seg ++ B)) := by
      apply countSub_ge_two hM hA2 _ h1
      rw [← lowerStr_append]
      exact hp
    have h3 : countSub (lowerStr footerMarker) (lowerStr A2 ++ lowerStr (seg ++ B))
        ≤ ciMarkerCount ((A ++ seg) ++ B) := by
      unfold ciMarkerCount
      have htxt : lowerStr ((A ++ seg) ++ B)
          = lowerStr A1 ++ (lowerStr A2 ++ lowerStr (seg ++ B)) := by
        rw [hsplit]
        simp [lowerStr_append, List.append_assoc]
      rw [htxt]
      exact countSub_append_ge _ _ _
    omega

/-- The head of a `pyStrip` output is not whitespace. -/
theorem pyStrip_head {x : List Char} {c : Char} {t : List Char}
    (h : pyStrip x = c :: t) : isPySpace c = false := by
  obtain ⟨e, he, hdec⟩ := pyStrip_decomp x
  rw [h, List.cons_append] at hdec
  exact dropWhile_head_false hdec

/-- Right-stripping a text ending in a guarded line keeps the line and leaves
a newline-led or empty remainder. -/
theorem rstrip_extend {seg B : List Char} (P0 : List Char) (hne : seg ≠ [])
    (hlast : isPySpace (seg.getLastD '!') = false)
    (hB : B = [] ∨ ∃ Bp, B = '\n' :: Bp) :
    ∃ S, (S = [] ∨ ∃ Sp, S = '\n' :: Sp)
      ∧ ((P0 ++ (seg ++ B)).reverse.dropWhile isPySpace).reverse = P0 ++ (seg ++ S) := by
  rcases (List.eq_nil_or_concat seg).resolve_left hne with ⟨si, sl, hcat⟩
  rw [List.concat_eq_append] at hcat
  have hsl : isPySpace sl = false := by
    rw [hcat] at hlast
    simpa using hlast
  have hrev : seg.reverse = sl :: si.reverse := by
    rw [hcat]
    simp
  rcases hB with rfl | ⟨Bp, rfl⟩
  · refine ⟨[], Or.inl rfl, ?_⟩
    have h1 : (P0 ++ (seg ++ [])).reverse = sl :: (si.reverse ++ P0.reverse) := by
      rw [List.append_nil, hcat]
      simp
    rw [h1, dropWhile_cons_false hsl, ← h1, List.reverse_reverse]
  · cases hz : Bp.reverse.dropWhile isPySpace with
    | nil =>
      refine ⟨[], Or.inl rfl, ?_⟩
      have h1 : (P0 ++ (seg ++ '\n' :: Bp)).reverse
          = Bp.reverse ++ '\n' :: (seg.reverse ++ P0.reverse) := by
        simp
      rw [h1, dropWhile_append_all Bp.reverse _ (dropWhile_nil_all hz),
        dropWhile_cons_true (by decide : isPySpace '\n' = true),
        hrev, List.cons_append, dropWhile_cons_false hsl]
      rw [show sl :: (si.reverse ++ P0.reverse) = (P0 ++ (seg ++ [])).reverse from by
        rw [List.append_nil, hcat]
        simp]
      rw [List.reverse_reverse]
    | cons z0 zr =>
      refine ⟨'\n' :: (z0 :: zr).reverse, Or.inr ⟨(z0 :: zr).reverse, rfl⟩, ?_⟩
      have h1 : (P0 ++ (seg ++ '\n' :: Bp)).reverse
          = Bp.reverse ++ '\n' :: (seg.reverse ++ P0.reverse) := by
        simp
      rw [h1, dropWhile_append_pos Bp.reverse _ hz]
      simp

/-- A unique, line-initial, well-ended footer line survives sanitization as a
line of the output. -/
theorem footer_preserved {A seg B : List Char}
    (hpre : footerMarker.isPrefixOf seg = true)
    (hseg : ∀ c ∈ seg, notNl c = true)
    (hB : B = [] ∨ ∃ Bp, B = '\n' :: Bp)
    (hlast : isPySpace (seg.getLastD '!') = false)
    (hcount : ciMarkerCount (A ++ seg ++ B) = 1) :
    seg ∈ splitNl (strip_spurious_body_sources (A ++ seg ++ B)) := by
  have hfm : findMarkerAux (A ++ (seg ++ B)) = some (A, seg ++ B) := fm_of_count hpre hcount
  obtain ⟨sr, hsr⟩ := isPref_iff.mp hpre
  have hsegcons : seg = '*' :: (("*Citations:**").data ++ sr) := by
    rw [← hsr]
    rfl
  have hne : seg ≠ [] := by
    rw [hsegcons]
    simp
  unfold strip_spurious_body_sources
  rw [List.append_assoc, hfm]
  dsimp only
  have hBne : (seg ++ B).isEmpty = false := by
    rw [hsegcons, List.cons_append]
    rfl
  rw [hBne, if_neg (by simp)]
  have hdwsegB : List.dropWhile isPySpace (seg ++ B) = seg ++ B := by
    rw [hsegcons, List.cons_append,
      dropWhile_cons_false (by decide : isPySpace '*' = false), ← List.cons_append,
      ← hsegcons]
  cases hC : cleanBody A with
  | nil =>
    simp only [List.nil_append, List.cons_append]
    unfold pyStrip
    rw [dropWhile_cons_true (by decide : isPySpace '\n' = true),
      dropWhile_cons_true (by decide : isPySpace '\n' = true), hdwsegB]
    obtain ⟨S, hS, hrst⟩ := rstrip_extend [] hne hlast hB
    simp only [List.nil_append] at hrst
    rw [hrst]
    exact @mem_lines_mid [] seg S (Or.inl rfl) hseg hS
  | cons c0 C2 =>
    have hc0 : isPySpace c0 = false := by
      have hC2 : pyStrip (collapseNl (subSourceLines (subCitLines A))) = c0 :: C2 := by
        unfold cleanBody at hC
        exact hC
      exact pyStrip_head hC2
    unfold pyStrip
    rw [List.cons_append, dropWhile_cons_false hc0, ← List.cons_append]
    rw [show (c0 :: C2) ++ ((['\n', '\n'] : List Char) ++ (seg ++ B))
        = ((c0 :: C2) ++ ['\n', '\n']) ++ (seg ++ B) from by simp]
    obtain ⟨S, hS, hrst⟩ := rstrip_extend ((c0 :: C2) ++ ['\n', '\n']) hne hlast hB
    rw [hrst]
    have hmem := @mem_lines_mid ((c0 :: C2) ++ ['\n', '\n']) seg S
      (Or.inr ⟨(c0 :: C2) ++ ['\n'], by simp⟩) hseg hS
    rw [show ((c0 :: C2) ++ ['\n', '\n']) ++ (seg ++ S)
        = (((c0 :: C2) ++ ['\n', '\n']) ++ seg) ++ S from by simp]
    exact hmem

/-- C8: sanitization round trip. (i) Every line of the sanitized body has any
bare `Source: X` line removed: no output body line begins with `Source: `;
(ii) the same holds for the whole sanitized text when it has no
`**Citations:**` footer marker; (iii) a footer line beginning with the marker,
occurring exactly once (case-insensitively) in the text, well delimited and
not ending in whitespace, is preserved verbatim as a line of the sanitized
output. -/
theorem C8_sanitize_round_trip :
    (∀ body seg, seg ∈ splitNl (cleanBody body) →
      ("Source: ").data.isPrefixOf seg = false)
    ∧ (∀ txt seg, findMarkerAux txt = none →
        seg ∈ splitNl (strip_spurious_body_sources txt) →
        ("Source: ").data.isPrefixOf seg = false)
    ∧ (∀ A seg B, footerMarker.isPrefixOf seg = true →
        (∀ c ∈ seg, notNl c = true) →
        (B = [] ∨ ∃ Bp, B = '\n' :: Bp) →
        isPySpace (seg.getLastD '!') = false →
        ciMarkerCount (A ++ seg ++ B) = 1 →
        seg ∈ splitNl (strip_spurious_body_sources (A ++ seg ++ B))) := by
  refine ⟨?_, ?_, ?_⟩
  · intro body seg h
    exact lineClean_plain (cleanBody_lines h)
  · intro txt seg hm h
    exact lineClean_plain (strip_no_marker hm h)
  · intro A seg B h1 h2 h3 h4 h5
    exact footer_preserved h1 h2 h3 h4 h5

/-- Witness for C8 on a concrete reply: the body `Source: internal` line is
gone and the `**Citations:**` line survives. -/
theorem C8_sanitize_round_trip_witness :
    ("Hello").data ∈ splitNl (cleanBody (("Hello\nSource: internal").data))
    ∧ ("Source: ").data.isPrefixOf (("Hello").data) = false
    ∧ ("**Citations:** CGWB 2022").data ∈ splitNl (strip_spurious_body_sources
        ((("Hello\nSource: internal\n\n").data)
          ++ ("**Citations:** CGWB 2022").data ++ [])) := by
  have hmem : ("Hello").data ∈ splitNl (cleanBody (("Hello\nSource: internal").data)) := by
    decide
  refine ⟨hmem, C8_sanitize_round_trip.1 _ _ hmem, ?_⟩
  exact C8_sanitize_round_trip.2.2 (("Hello\nSource: internal\n\n").data)
    (("**Citations:** CGWB 2022").data) [] (by decide) (by decide) (Or.inl rfl)
    (by decide) (by decide)

end NeerSetu
